import Mathlib

/-! # SRV reply parsing and the SELinux child request frame

A shallow embedding of two C functions and their callers:

* `_ares_parse_srv_reply` (`src/server/resolv/ares/ares_parse_srv_reply.c`),
  which decodes the answer section of a DNS message into SRV records;
* `unpack_buffer`, `pack_buffer`, `prepare_response` and `main`
  (`src/src/providers/ipa/selinux_child.c`), the request/response frame of
  the privileged helper.

Memory reached through a C pointer is a function from offsets to bytes, so
that a read past the declared length still has a value; every function that
reads memory also returns the list of offsets it read.
-/

namespace Sssd

/-! ## Memory -/

/-- Memory seen through a `const unsigned char *`: the value stored at each
offset from the pointer, whatever lies there. -/
abbrev Mem := Nat → Nat

/-- The memory holding the bytes of `l` at offsets `0 .. l.length - 1` and
zero after them. -/
def memOf (l : List Nat) : Mem := fun i => l.getD i 0

/-- One `unsigned char` read at offset `i`. -/
def byteAt (m : Mem) (i : Nat) : Nat := m i % 256

/-- The `n` bytes stored at offsets `p .. p + n - 1`. -/
def bytesAt (m : Mem) (p n : Nat) : List Nat :=
  (List.range n).map (fun k => byteAt m (p + k))

/-! ## `_ares_parse_srv_reply` -/

/-- Value of `ARES_SUCCESS` in `ares.h`. -/
def ARES_SUCCESS : Int := 0
/-- Value of `ARES_ENODATA` in `ares.h`. -/
def ARES_ENODATA : Int := 1
/-- Value of `ARES_EBADNAME` in `ares.h`. -/
def ARES_EBADNAME : Int := 8
/-- Value of `ARES_EBADRESP` in `ares.h`. -/
def ARES_EBADRESP : Int := 10
/-- Value of `ARES_ENOMEM` in `ares.h`. -/
def ARES_ENOMEM : Int := 15

/-- Size of the fixed DNS header (`arpa/nameser.h`). -/
def HFIXEDSZ : Nat := 12
/-- Size of the fixed part of a question: type and class (`arpa/nameser.h`). -/
def QFIXEDSZ : Nat := 4
/-- Size of the fixed part of a resource record: type, class, TTL and data
length (`arpa/nameser.h`). -/
def RRFIXEDSZ : Nat := 10
/-- Class Internet (`arpa/nameser.h`). -/
def C_IN : Nat := 1
/-- Type SRV (`arpa/nameser.h`). -/
def T_SRV : Nat := 33

/-- Modelled from the spec: the macro `DNS__16BIT` of `ares_dns.h`, which is
not under `src/`; a big-endian 16-bit read of the two bytes at `p`. -/
def DNS__16BIT (m : Mem) (p : Nat) : Nat := byteAt m p * 256 + byteAt m (p + 1)

/-- Modelled from the spec: `DNS_HEADER_QDCOUNT` of `ares_dns.h`; the question
count at its fixed offset 4 of the standard DNS header. -/
def DNS_HEADER_QDCOUNT (m : Mem) : Nat := DNS__16BIT m 4

/-- Modelled from the spec: `DNS_HEADER_ANCOUNT` of `ares_dns.h`; the answer
count at its fixed offset 6 of the standard DNS header. -/
def DNS_HEADER_ANCOUNT (m : Mem) : Nat := DNS__16BIT m 6

/-- Modelled from the spec: `DNS_RR_TYPE` of `ares_dns.h`; the record type,
first field of the fixed RR header at `r`. -/
def DNS_RR_TYPE (m : Mem) (r : Nat) : Nat := DNS__16BIT m r

/-- Modelled from the spec: `DNS_RR_CLASS` of `ares_dns.h`; the record class,
second field of the fixed RR header at `r`. -/
def DNS_RR_CLASS (m : Mem) (r : Nat) : Nat := DNS__16BIT m (r + 2)

/-- Modelled from the spec: `DNS_RR_LEN` of `ares_dns.h`; the declared data
length, last field of the fixed RR header at `r` (after the 32-bit TTL). -/
def DNS_RR_LEN (m : Mem) (r : Nat) : Nat := DNS__16BIT m (r + 8)

/-- The value `ntohs (*((const uint16_t *)aptr))`: the two bytes at `p` in
network order. -/
def ntohs_at (m : Mem) (p : Nat) : Nat := byteAt m p * 256 + byteAt m (p + 1)

/-- The failures of `ares_expand_name`. -/
inductive expand_err
  | badname
  | nomem
  deriving DecidableEq, Repr

/-- The status `ares_expand_name` returns for a failure. -/
def expand_err.status : expand_err → Int
  | .badname => ARES_EBADNAME
  | .nomem => ARES_ENOMEM

/-- The external name expander `ares_expand_name (encoded, abuf, alen, &s,
&enclen)`: given the offset of the encoded name, the buffer and its declared
length, either a failure or the expanded name with the length of its
encoding. -/
abbrev Expander := Nat → Mem → Int → Except expand_err (List Nat × Nat)

/-- The C `struct srv_reply`. -/
structure srv_reply where
  priority : Nat
  weight : Nat
  port : Nat
  host : List Nat
  deriving DecidableEq, Repr

/-- What the caller of `_ares_parse_srv_reply` observes: the return value,
`*srv_out` (`none` for `NULL`, else the array, a slot being `none` while it
is unwritten memory), `*nsrvreply`, and the offsets of `abuf` the function
itself dereferenced. -/
structure parse_result where
  status : Int
  srv_out : Option (List (Option srv_reply))
  nsrvreply : Nat
  reads : List Nat
  deriving DecidableEq, Repr

/-- The `for` loop over the answer records, lines 108 to 155: `n` iterations
remain, `i` is the loop index, `aptr` the cursor. Returns `status`, the array
and the offsets read when the loop is left. -/
def answer_loop (expand : Expander) (abuf : Mem) (alen : Int) :
    Nat → Nat → Nat → List (Option srv_reply) → List Nat →
      Int × List (Option srv_reply) × List Nat
  | 0, _, _, srv, rd => (ARES_SUCCESS, srv, rd)
  | n + 1, i, aptr, srv, rd =>
    match expand aptr abuf alen with
    | .error e => (e.status, srv, rd)
    | .ok (_, len) =>
      let aptr := aptr + len
      if ((aptr + RRFIXEDSZ : Nat) : Int) > alen then (ARES_EBADRESP, srv, rd)
      else
        let rr_type := DNS_RR_TYPE abuf aptr
        let rr_class := DNS_RR_CLASS abuf aptr
        let rr_len := DNS_RR_LEN abuf aptr
        let rd := rd ++ [aptr, aptr + 1, aptr + 2, aptr + 3, aptr + 8, aptr + 9]
        let aptr := aptr + RRFIXEDSZ
        if rr_class = C_IN ∧ rr_type = T_SRV then
          if rr_len < 6 then (ARES_EBADRESP, srv, rd)
          else
            let priority := ntohs_at abuf aptr
            let weight := ntohs_at abuf (aptr + 2)
            let port := ntohs_at abuf (aptr + 4)
            let rd := rd ++ [aptr, aptr + 1, aptr + 2, aptr + 3, aptr + 4, aptr + 5]
            let aptr := aptr + 6
            match expand aptr abuf alen with
            | .error e => (e.status, srv, rd)
            | .ok (host, len) =>
              answer_loop expand abuf alen n (i + 1) (aptr + len)
                (srv.set i (some ⟨priority, weight, port, host⟩)) rd
        else
          answer_loop expand abuf alen n (i + 1) aptr srv rd

/-- The function `_ares_parse_srv_reply`, with the name expander and the
outcome of `malloc` as parameters; `srv_out` and `nsrvreply` are non-null. -/
def _ares_parse_srv_reply (expand : Expander) (malloc_ok : Bool)
    (abuf : Mem) (alen : Int) : parse_result :=
  if alen < (HFIXEDSZ : Int) then ⟨ARES_EBADRESP, none, 0, []⟩
  else
    let qdcount := DNS_HEADER_QDCOUNT abuf
    let ancount := DNS_HEADER_ANCOUNT abuf
    let rd := [4, 5, 6, 7]
    if qdcount ≠ 1 then ⟨ARES_EBADRESP, none, 0, rd⟩
    else if ancount = 0 then ⟨ARES_ENODATA, none, 0, rd⟩
    else
      match expand HFIXEDSZ abuf alen with
      | .error e => ⟨e.status, none, 0, rd⟩
      | .ok (_, len) =>
        if ((HFIXEDSZ + len + QFIXEDSZ : Nat) : Int) > alen then
          ⟨ARES_EBADRESP, none, 0, rd⟩
        else
          let aptr := HFIXEDSZ + len + QFIXEDSZ
          if !malloc_ok then ⟨ARES_ENOMEM, none, 0, rd⟩
          else
            let r := answer_loop expand abuf alen ancount 0 aptr
              (List.replicate ancount none) rd
            if r.1 ≠ ARES_SUCCESS then ⟨r.1, none, 0, r.2.2⟩
            else ⟨r.1, some r.2.1, ancount, r.2.2⟩

/-- A name expander for uncompressed names, used at concrete inputs: walks
the length-prefixed labels from `p`, joins them with dots, and fails with
`badname` on a label byte of 64 or more or when a label or the terminating
zero would lie past `alen`. `start` is where the name began. -/
def expand_labels (abuf : Mem) (alen : Int) (start : Nat) :
    Nat → Nat → List Nat → Except expand_err (List Nat × Nat)
  | 0, _, _ => .error .badname
  | fuel + 1, p, acc =>
    if ((p + 1 : Nat) : Int) > alen then .error .badname
    else
      let l := byteAt abuf p
      if l = 0 then .ok (acc, p + 1 - start)
      else if 64 ≤ l then .error .badname
      else if ((p + 1 + l : Nat) : Int) > alen then .error .badname
      else
        expand_labels abuf alen start fuel (p + 1 + l)
          ((if acc = [] then [] else acc ++ [46]) ++ bytesAt abuf (p + 1) l)

/-- The sample expander as an `Expander`. -/
def label_expander : Expander := fun p abuf alen =>
  expand_labels abuf alen p alen.toNat p []

/-! ## `selinux_child.c` -/

/-- Value of `EOK` (`util/util_errors.h`). -/
def EOK : Int := 0
/-- Value of `ENOMEM` (`errno.h`). -/
def ENOMEM : Int := 12
/-- Value of `EINVAL` (`errno.h`). -/
def EINVAL : Int := 22
/-- Value of `EXIT_SUCCESS` (`stdlib.h`). -/
def EXIT_SUCCESS : Int := 0
/-- Value of `EXIT_FAILURE` (`stdlib.h`). -/
def EXIT_FAILURE : Int := 1

/-- The C `struct input_buffer`; a member is `none` while it is `NULL`. -/
structure input_buffer where
  seuser : Option (List Nat)
  mls_range : Option (List Nat)
  username : Option (List Nat)
  deriving DecidableEq, Repr

/-- The big-endian value of the four bytes at `p`. -/
def be32_at (m : Mem) (p : Nat) : Nat :=
  byteAt m p * 2 ^ 24 + byteAt m (p + 1) * 2 ^ 16 + byteAt m (p + 2) * 2 ^ 8
    + byteAt m (p + 3)

/-- The four bytes of the big-endian representation of `v` modulo `2 ^ 32`. -/
def be32_bytes (v : Nat) : List Nat :=
  [v / 2 ^ 24 % 256, v / 2 ^ 16 % 256, v / 2 ^ 8 % 256, v % 256]

/-- Modelled from the spec: the macro `SAFEALIGN_COPY_UINT32_CHECK (&len,
buf + p, size, &p)` of `util/util.h`, which is not under `src/`; the spec's
`read_u32_be`: when four bytes remain before `size` it yields the big-endian
length and the cursor advanced by four, and otherwise fails (`none`), in
which case the enclosing function returns `EINVAL`. -/
def SAFEALIGN_COPY_UINT32_CHECK (buf : Mem) (size p : Nat) : Option (Nat × Nat) :=
  if p + 4 > size then none else some (be32_at buf p, p + 4)

/-- The libc `strnlen (s, n)` for the string at offset `p`. -/
def strnlen (m : Mem) : Nat → Nat → Nat
  | _, 0 => 0
  | p, n + 1 => if byteAt m p = 0 then 0 else strnlen m (p + 1) n + 1

/-- The content of the string `talloc_strndup (ctx, buf + p, n)` builds:
the bytes at `p` up to the first NUL, at most `n` of them. -/
def strndup_bytes (m : Mem) (p n : Nat) : List Nat := bytesAt m p (strnlen m p n)

/-- The offsets `talloc_strndup (ctx, buf + p, n)` reads: the bytes it
copies and, when it stopped before `n`, the NUL that stopped it. -/
def strndup_reads (m : Mem) (p n : Nat) : List Nat :=
  (List.range (min (strnlen m p n + 1) n)).map (fun k => p + k)

/-- What the caller of `unpack_buffer` observes: the return value, the content
of `*ibuf`, and the offsets of `buf` that were read. -/
structure unpack_result where
  ret : Int
  ibuf : input_buffer
  reads : List Nat
  deriving DecidableEq, Repr

/-- The local state of `unpack_buffer` between two field blocks. -/
structure unpack_state where
  ibuf : input_buffer
  p : Nat
  reads : List Nat
  deriving DecidableEq, Repr

/-- One field block of `unpack_buffer` (lines 49 to 59, 62 to 72 and 75 to
85 differ only in the member assigned, passed here as `assign`): either the
function returns (`error`) or control reaches the next block (`ok`). `w` is
the width of `size_t` in bits and `alloc_ok` whether `talloc_strndup` finds
memory. -/
def unpack_field (w : Nat) (alloc_ok : Bool) (buf : Mem) (size : Nat)
    (assign : input_buffer → Option (List Nat) → input_buffer)
    (s : unpack_state) : Except unpack_result unpack_state :=
  match SAFEALIGN_COPY_UINT32_CHECK buf size s.p with
  | none => .error ⟨EINVAL, s.ibuf, s.reads⟩
  | some (len, p) =>
    let rd := s.reads ++ [s.p, s.p + 1, s.p + 2, s.p + 3]
    if len = 0 then .error ⟨EINVAL, s.ibuf, rd⟩
    else if (p + len) % 2 ^ w > size then .error ⟨EINVAL, s.ibuf, rd⟩
    else
      let str := if alloc_ok then some (strndup_bytes buf p len) else none
      let ibuf := assign s.ibuf str
      let rd := rd ++ strndup_reads buf p len
      if str = none then .error ⟨ENOMEM, ibuf, rd⟩
      else .ok ⟨ibuf, (p + len) % 2 ^ w, rd⟩

/-- The function `unpack_buffer`; `alloc_ok k` tells whether the
`talloc_strndup` of field `k` (0, 1, 2) finds memory. -/
def unpack_buffer (w : Nat) (alloc_ok : Nat → Bool) (buf : Mem) (size : Nat)
    (ibuf : input_buffer) : unpack_result :=
  match unpack_field w (alloc_ok 0) buf size
      (fun b v => { b with seuser := v }) ⟨ibuf, 0, []⟩ with
  | .error r => r
  | .ok s1 =>
    match unpack_field w (alloc_ok 1) buf size
        (fun b v => { b with mls_range := v }) s1 with
    | .error r => r
    | .ok s2 =>
      match unpack_field w (alloc_ok 2) buf size
          (fun b v => { b with username := v }) s2 with
      | .error r => r
      | .ok s3 => ⟨EOK, s3.ibuf, s3.reads⟩

/-- The C `struct response` (`util/child_common.h`). -/
structure response where
  buf : Option (List Nat)
  size : Nat
  deriving DecidableEq, Repr

/-- Modelled from the spec: the macro `SAFEALIGN_SET_UINT32 (&r->buf[p],
result, &p)` of `util/util.h`, which is not under `src/`; the four bytes it
stores, the spec's fixed 4-byte big-endian representation of the status
converted to `uint32_t`, that is of `value` modulo `2 ^ 32`. -/
def SAFEALIGN_SET_UINT32 (value : Int) : List Nat :=
  be32_bytes (value % 2 ^ 32).toNat

/-- The function `pack_buffer`; `alloc_ok` tells whether `talloc_array`
finds memory. The array has `r->size = 4` bytes and the store at `p = 0`
fills all of it. -/
def pack_buffer (alloc_ok : Bool) (r : response) (result : Int) : Int × response :=
  let r := { r with size := 4 }
  if !alloc_ok then (ENOMEM, { r with buf := none })
  else (EOK, { r with buf := some (SAFEALIGN_SET_UINT32 result) })

/-- The function `prepare_response`: the return value and `*rsp`, which is
only assigned on success. `r_ok` and `buf_ok` are the outcomes of
`talloc_zero` and of the `talloc_array` in `pack_buffer`. -/
def prepare_response (r_ok buf_ok : Bool) (result : Int) (rsp : Option response) :
    Int × Option response :=
  if !r_ok then (ENOMEM, rsp)
  else
    let r : response := ⟨none, 0⟩
    let pr := pack_buffer buf_ok r result
    if pr.1 ≠ EOK then (pr.1, rsp)
    else (EOK, some pr.2)

/-- The externally visible actions of `main`. -/
inductive event
  | set_seuser (username seuser mls_range : Option (List Nat))
  | write (bytes : List Nat)
  deriving DecidableEq, Repr

/-- The results `main` obtains from outside: the option parser, the
allocator, the read from standard input (`none` for `-1`, else the length
received, with `in_buf` the buffer content afterwards), the privileged
action and the write to standard output (`none` for `-1`, else the number of
bytes written). `w` is the width of `size_t`. -/
structure main_env where
  w : Nat
  bad_option : Bool
  prg_name_ok : Bool
  main_ctx_ok : Bool
  buf_ok : Bool
  ibuf_ok : Bool
  read_len : Option Nat
  in_buf : Mem
  strndup_ok : Nat → Bool
  set_seuser : Option (List Nat) → Option (List Nat) → Option (List Nat) → Int
  resp_ok : Bool
  resp_buf_ok : Bool
  write_ret : List Nat → Option Nat

/-- The function `main` as a function of its external results: the exit
status and the actions performed, in order. -/
def main (env : main_env) : Int × List event :=
  if env.bad_option then (-1, [])
  else if !env.prg_name_ok then (EXIT_FAILURE, [])
  else if !env.main_ctx_ok then (EXIT_FAILURE, [])
  else if !env.buf_ok then (EXIT_FAILURE, [])
  else if !env.ibuf_ok then (EXIT_FAILURE, [])
  else
    match env.read_len with
    | none => (EXIT_FAILURE, [])
    | some len =>
      let u := unpack_buffer env.w env.strndup_ok env.in_buf len ⟨none, none, none⟩
      if u.ret ≠ EOK then (EXIT_FAILURE, [])
      else
        let ev := [event.set_seuser u.ibuf.username u.ibuf.seuser u.ibuf.mls_range]
        let ret := env.set_seuser u.ibuf.username u.ibuf.seuser u.ibuf.mls_range
        if ret ≠ EOK then (EXIT_FAILURE, ev)
        else
          let pr := prepare_response env.resp_ok env.resp_buf_ok ret none
          if pr.1 ≠ EOK then (EXIT_FAILURE, ev)
          else
            match pr.2 with
            | none => (EXIT_FAILURE, ev)
            | some resp =>
              let bytes := resp.buf.getD []
              let ev := ev ++ [event.write bytes]
              match env.write_ret bytes with
              | none => (EXIT_FAILURE, ev)
              | some written =>
                if written ≠ resp.size then (EXIT_FAILURE, ev)
                else (EXIT_SUCCESS, ev)

/-! ## The decoder the specification describes -/

/-- Spec-side answer walk, following the words of the specification and not
the source (section 4.2 step 5 with the unconditional skip of section 9):
expand the owner name, require the fixed RR header, and for an IN/SRV record
require a data length of at least 6, read the three fields and expand the
target; then move the cursor to the end of the declared data of the record,
matched or not. Any failure is `BadResponse`. -/
def spec_answers (expand : Expander) (abuf : Mem) (alen : Int) :
    Nat → Nat → Except Int (List srv_reply)
  | 0, _ => .ok []
  | n + 1, cur =>
    match expand cur abuf alen with
    | .error _ => .error ARES_EBADRESP
    | .ok (_, len) =>
      let hdr := cur + len
      if ((hdr + RRFIXEDSZ : Nat) : Int) > alen then .error ARES_EBADRESP
      else
        let data := hdr + RRFIXEDSZ
        let rdlen := DNS_RR_LEN abuf hdr
        if ((data + rdlen : Nat) : Int) > alen then .error ARES_EBADRESP
        else if DNS_RR_CLASS abuf hdr = C_IN ∧ DNS_RR_TYPE abuf hdr = T_SRV then
          if rdlen < 6 then .error ARES_EBADRESP
          else
            match expand (data + 6) abuf alen with
            | .error _ => .error ARES_EBADRESP
            | .ok (host, _) =>
              match spec_answers expand abuf alen n (data + rdlen) with
              | .error e => .error e
              | .ok rest =>
                .ok (⟨ntohs_at abuf data, ntohs_at abuf (data + 2),
                  ntohs_at abuf (data + 4), host⟩ :: rest)
        else spec_answers expand abuf alen n (data + rdlen)

/-- Spec-side decoder, following section 4.2 of the specification: header
checks, the question skipped, then `spec_answers`; on success the list of
decoded SRV records, whose length is the count the specification reports. -/
def spec_decode (expand : Expander) (abuf : Mem) (alen : Int) :
    Except Int (List srv_reply) :=
  if alen < (HFIXEDSZ : Int) then .error ARES_EBADRESP
  else if DNS_HEADER_QDCOUNT abuf ≠ 1 then .error ARES_EBADRESP
  else if DNS_HEADER_ANCOUNT abuf = 0 then .error ARES_ENODATA
  else
    match expand HFIXEDSZ abuf alen with
    | .error _ => .error ARES_EBADRESP
    | .ok (_, len) =>
      if ((HFIXEDSZ + len + QFIXEDSZ : Nat) : Int) > alen then .error ARES_EBADRESP
      else spec_answers expand abuf alen (DNS_HEADER_ANCOUNT abuf)
        (HFIXEDSZ + len + QFIXEDSZ)

/-! ## Sample messages -/

/-- A DNS header with identifier 0, flags `0x8180` and the given question and
answer counts. -/
def dns_header (qd an : Nat) : List Nat :=
  [0, 0, 0x81, 0x80, qd / 256, qd % 256, an / 256, an % 256, 0, 0, 0, 0]

/-- A question for the root name: type SRV, class IN. -/
def dns_question : List Nat := [0, 0, 33, 0, 1]

/-- An IN/SRV answer owned by the root name, with TTL 60 and the given
fields; `host` is the encoded target. -/
def srv_answer (priority weight port : Nat) (host : List Nat) : List Nat :=
  [0, 0, 33, 0, 1, 0, 0, 0, 60, 0, 6 + host.length,
    priority / 256, priority % 256, weight / 256, weight % 256,
    port / 256, port % 256] ++ host

/-- An IN/A answer owned by the root name, with TTL 60 and address
127.0.0.1. -/
def a_answer : List Nat := [0, 0, 1, 0, 1, 0, 0, 0, 60, 0, 4, 127, 0, 0, 1]

/-- A 28-byte message whose single IN/SRV answer declares 6 data bytes and
ends right after its fixed RR header. -/
def msg_srv_cut : List Nat :=
  dns_header 1 1 ++ dns_question ++ [0, 0, 33, 0, 1, 0, 0, 0, 60, 0, 6]

/-- A 32-byte message whose single answer is an IN/A record. -/
def msg_one_a : List Nat := dns_header 1 1 ++ dns_question ++ a_answer

/-- A 72-byte message with three answers: SRV (1, 2, 389, host `a`), the A
record, SRV (3, 4, 636, host `b`). -/
def msg_srv_a_srv : List Nat :=
  dns_header 1 3 ++ dns_question ++ srv_answer 1 2 389 [1, 97, 0] ++ a_answer
    ++ srv_answer 3 4 636 [1, 98, 0]

/-- A 57-byte message with two SRV answers. -/
def msg_two_srv : List Nat :=
  dns_header 1 2 ++ dns_question ++ srv_answer 1 2 389 [1, 97, 0]
    ++ srv_answer 3 4 636 [1, 98, 0]

/-- One field of a request frame: the four-byte big-endian length of `body`
followed by `body`. -/
def frame_field (body : List Nat) : List Nat := be32_bytes body.length ++ body

/-- Modelled from the spec: the request encoder, which is on the parent side
and not under `src/`; three consecutive (u32 big-endian length, raw bytes)
fields in the fixed order seuser, mls_range, username. -/
def request_frame (seuser mls_range username : List Nat) : List Nat :=
  frame_field seuser ++ (frame_field mls_range ++ frame_field username)

/-- The list `l` is stored in `buf` from offset `p` on. -/
def stored (buf : Mem) (p : Nat) (l : List Nat) : Prop :=
  ∀ k, k < l.length → buf (p + k) = l.getD k 0

/-- The bytes of the string "unconfined_u". -/
def str_unconfined_u : List Nat :=
  [117, 110, 99, 111, 110, 102, 105, 110, 101, 100, 95, 117]

/-- The bytes of the string "s0-s0:c0.c1023". -/
def str_mls : List Nat := [115, 48, 45, 115, 48, 58, 99, 48, 46, 99, 49, 48, 50, 51]

/-- The bytes of the string "alice". -/
def str_alice : List Nat := [97, 108, 105, 99, 101]

/-- Twelve bytes of memory: ten bytes `0xff`, then `x` and a NUL. Received
with length 10, every length prefix read from it is `0xffffffff`. -/
def buf_wrap : List Nat := [255, 255, 255, 255, 255, 255, 255, 255, 255, 255, 120, 0]

/-- Memory holding the prefix `0xffffffff` and `ABCD`, then `E` and a NUL
past the received length 8. -/
def buf_past_e : List Nat := [255, 255, 255, 255, 65, 66, 67, 68, 69, 0]

/-- The same first eight bytes as `buf_past_e`, then a NUL. -/
def buf_past_nul : List Nat := [255, 255, 255, 255, 65, 66, 67, 68, 0]

/-- A 20-byte frame whose seuser field is one NUL byte, followed by the
fields `s0` and `alice`. -/
def frame_nul_seuser : List Nat :=
  [0, 0, 0, 1, 0] ++ frame_field [115, 48] ++ frame_field str_alice

/-- A 21-byte frame: seuser `a`, then a field of declared length zero. -/
def frame_zero_mls : List Nat :=
  frame_field [97] ++ [0, 0, 0, 0] ++ frame_field str_alice ++ [0, 0, 0]

/-- An environment of `main` on a platform with a `w`-bit `size_t` in which
everything outside succeeds: `len` bytes are received into memory `mem`, the
privileged action returns 0 and the write is complete. -/
def env_all_ok (w : Nat) (mem : List Nat) (len : Nat) : main_env where
  w := w
  bad_option := false
  prg_name_ok := true
  main_ctx_ok := true
  buf_ok := true
  ibuf_ok := true
  read_len := some len
  in_buf := memOf mem
  strndup_ok := fun _ => true
  set_seuser := fun _ _ _ => 0
  resp_ok := true
  resp_buf_ok := true
  write_ret := fun b => some b.length

/-! ## Auxiliary definitions for the statements -/

/-- The end of `_ares_parse_srv_reply`, lines 157 to 172, as a function of
what the loop left: `status`, the array and the offsets read. -/
def after_loop (ancount : Nat) (r : Int × List (Option srv_reply) × List Nat) :
    parse_result :=
  if r.1 ≠ ARES_SUCCESS then ⟨r.1, none, 0, r.2.2⟩
  else ⟨r.1, some r.2.1, ancount, r.2.2⟩

/-- The answer section starting at offset `cur` consists of exactly the
IN/SRV records `recs`: for each, the owner name expands, the fixed RR header
announces class IN and type SRV, the data is three 16-bit fields followed by
an encoded target name and ends inside the buffer, and the record fields are
the values stored there. -/
def srv_section (expand : Expander) (abuf : Mem) (alen : Int) :
    Nat → List srv_reply → Prop
  | _, [] => True
  | cur, r :: rs =>
    ∃ (owner : List Nat) (olen hlen : Nat),
      expand cur abuf alen = .ok (owner, olen) ∧
      DNS_RR_CLASS abuf (cur + olen) = C_IN ∧
      DNS_RR_TYPE abuf (cur + olen) = T_SRV ∧
      DNS_RR_LEN abuf (cur + olen) = 6 + hlen ∧
      ((cur + olen + RRFIXEDSZ + 6 + hlen : Nat) : Int) ≤ alen ∧
      r.priority = ntohs_at abuf (cur + olen + RRFIXEDSZ) ∧
      r.weight = ntohs_at abuf (cur + olen + RRFIXEDSZ + 2) ∧
      r.port = ntohs_at abuf (cur + olen + RRFIXEDSZ + 4) ∧
      expand (cur + olen + RRFIXEDSZ + 6) abuf alen = .ok (r.host, hlen) ∧
      srv_section expand abuf alen (cur + olen + RRFIXEDSZ + 6 + hlen) rs

/-- One pass through the body of the answer loop (lines 110 to 154) with the
cursor at `aptr`: either the status with which the loop is left, or the
value written to the slot `srv[i]` (`none` when the slot is not written) and
the cursor for the next pass. -/
def answer_step (expand : Expander) (abuf : Mem) (alen : Int) (aptr : Nat) :
    Except Int (Option srv_reply × Nat) :=
  match expand aptr abuf alen with
  | .error e => .error e.status
  | .ok (_, len) =>
    let hdr := aptr + len
    if ((hdr + RRFIXEDSZ : Nat) : Int) > alen then .error ARES_EBADRESP
    else if DNS_RR_CLASS abuf hdr = C_IN ∧ DNS_RR_TYPE abuf hdr = T_SRV then
      if DNS_RR_LEN abuf hdr < 6 then .error ARES_EBADRESP
      else
        match expand (hdr + RRFIXEDSZ + 6) abuf alen with
        | .error e => .error e.status
        | .ok (host, len2) =>
          .ok (some ⟨ntohs_at abuf (hdr + RRFIXEDSZ), ntohs_at abuf (hdr + RRFIXEDSZ + 2),
            ntohs_at abuf (hdr + RRFIXEDSZ + 4), host⟩, hdr + RRFIXEDSZ + 6 + len2)
    else .ok (none, hdr + RRFIXEDSZ)

/-- The cursor at the start of pass `j` of the answer loop, the first pass
starting at `aptr`; `none` when an earlier pass leaves the loop. -/
def loop_cursor (expand : Expander) (abuf : Mem) (alen : Int) : Nat → Nat → Option Nat
  | 0, aptr => some aptr
  | j + 1, aptr =>
    match answer_step expand abuf alen aptr with
    | .error _ => none
    | .ok (_, next) => loop_cursor expand abuf alen j next

/-- The values the first `j` passes of the answer loop give to the slots
`srv[0] .. srv[j - 1]`, the first pass starting at `aptr`; the list stops at
a pass that leaves the loop. -/
def loop_slots (expand : Expander) (abuf : Mem) (alen : Int) :
    Nat → Nat → List (Option srv_reply)
  | 0, _ => []
  | j + 1, aptr =>
    match answer_step expand abuf alen aptr with
    | .error _ => []
    | .ok (slot, next) => slot :: loop_slots expand abuf alen j next

/-- The array after a pass with index `i`: slot `i` is written when the pass
decoded a record. -/
def write_slot (srv : List (Option srv_reply)) (i : Nat) :
    Option srv_reply → List (Option srv_reply)
  | none => srv
  | some r => srv.set i (some r)

/-- As `srv_section`, with the offset `stop` at which the section ends. -/
def srv_section_to (expand : Expander) (abuf : Mem) (alen : Int) :
    Nat → List srv_reply → Nat → Prop
  | cur, [], stop => stop = cur
  | cur, r :: rs, stop =>
    ∃ (owner : List Nat) (olen hlen : Nat),
      expand cur abuf alen = .ok (owner, olen) ∧
      DNS_RR_CLASS abuf (cur + olen) = C_IN ∧
      DNS_RR_TYPE abuf (cur + olen) = T_SRV ∧
      DNS_RR_LEN abuf (cur + olen) = 6 + hlen ∧
      ((cur + olen + RRFIXEDSZ + 6 + hlen : Nat) : Int) ≤ alen ∧
      r.priority = ntohs_at abuf (cur + olen + RRFIXEDSZ) ∧
      r.weight = ntohs_at abuf (cur + olen + RRFIXEDSZ + 2) ∧
      r.port = ntohs_at abuf (cur + olen + RRFIXEDSZ + 4) ∧
      expand (cur + olen + RRFIXEDSZ + 6) abuf alen = .ok (r.host, hlen) ∧
      srv_section_to expand abuf alen (cur + olen + RRFIXEDSZ + 6 + hlen) rs stop

/-- The steps of `main` before the read succeed: the options parse and the
four allocations find memory. -/
def startup_ok (env : main_env) : Bool :=
  !env.bad_option && env.prg_name_ok && env.main_ctx_ok && env.buf_ok && env.ibuf_ok

/-- A 12-byte message: a header announcing one question and no answer. -/
def msg_no_answer : List Nat := dns_header 1 0

/-- A 12-byte message: a header announcing no question and no answer. -/
def msg_no_question : List Nat := dns_header 0 0

/-- A 17-byte message: a header announcing two questions and one answer,
followed by one question. -/
def msg_two_questions : List Nat := dns_header 2 1 ++ dns_question

/-- A 12-byte message: a header announcing one question and one answer,
with nothing after it. -/
def msg_header_only : List Nat := dns_header 1 1

/-- A 53-byte message with two answers: SRV (1, 2, 389, host `a`), then an
IN/SRV record that declares 5 data bytes. -/
def msg_short_srv : List Nat :=
  dns_header 1 2 ++ dns_question ++ srv_answer 1 2 389 [1, 97, 0]
    ++ [0, 0, 33, 0, 1, 0, 0, 0, 60, 0, 5, 1, 2, 3, 4, 5]

/-- A 52-byte message with two answers: SRV (1, 2, 389, host `a`), then the
A record. -/
def msg_srv_then_a : List Nat :=
  dns_header 1 2 ++ dns_question ++ srv_answer 1 2 389 [1, 97, 0] ++ a_answer

/-- A 46-byte buffer: the 43-byte frame for `unconfined_u`, `s0-s0:c0.c1023`,
`alice`, followed by three trailing bytes. -/
def frame_trailing : List Nat :=
  request_frame str_unconfined_u str_mls str_alice ++ [1, 2, 3]

/-- The result of the request decode in `main` when `len` bytes were read
(line 234). -/
def decoded_request (env : main_env) (len : Nat) : unpack_result :=
  unpack_buffer env.w env.strndup_ok env.in_buf len ⟨none, none, none⟩

/-- The status the privileged action returns in `main` when `len` bytes
were read (line 243). -/
def action_status (env : main_env) (len : Nat) : Int :=
  env.set_seuser (decoded_request env len).ibuf.username
    (decoded_request env len).ibuf.seuser (decoded_request env len).ibuf.mls_range

/-- The field block of `unpack_buffer` entered with the cursor at `p` lets
control go on to the next block: the length prefix lies before `size`, the
declared length is not zero, the bound check of the body passes in `size_t`
arithmetic, and `talloc_strndup` finds memory. -/
def field_proceeds (w : Nat) (alloc_ok : Bool) (buf : Mem) (size p : Nat) : Prop :=
  p + 4 ≤ size ∧ be32_at buf p ≠ 0 ∧ (p + 4 + be32_at buf p) % 2 ^ w ≤ size ∧
    alloc_ok = true

instance (w : Nat) (alloc_ok : Bool) (buf : Mem) (size p : Nat) :
    Decidable (field_proceeds w alloc_ok buf size p) := by
  unfold field_proceeds
  exact inferInstance

/-- Spec-side answer walk by position, following the words of the
specification and not the source: as `spec_answers`, with one entry for
each answer of the message, in order, the decoded record for an IN/SRV
answer and `none` for any other, the cursor always moving to the end of the
declared data of the answer. -/
def spec_answer_slots (expand : Expander) (abuf : Mem) (alen : Int) :
    Nat → Nat → Except Int (List (Option srv_reply))
  | 0, _ => .ok []
  | n + 1, cur =>
    match expand cur abuf alen with
    | .error _ => .error ARES_EBADRESP
    | .ok (_, len) =>
      let hdr := cur + len
      if ((hdr + RRFIXEDSZ : Nat) : Int) > alen then .error ARES_EBADRESP
      else
        let data := hdr + RRFIXEDSZ
        let rdlen := DNS_RR_LEN abuf hdr
        if ((data + rdlen : Nat) : Int) > alen then .error ARES_EBADRESP
        else if DNS_RR_CLASS abuf hdr = C_IN ∧ DNS_RR_TYPE abuf hdr = T_SRV then
          if rdlen < 6 then .error ARES_EBADRESP
          else
            match expand (data + 6) abuf alen with
            | .error _ => .error ARES_EBADRESP
            | .ok (host, _) =>
              match spec_answer_slots expand abuf alen n (data + rdlen) with
              | .error e => .error e
              | .ok rest =>
                .ok (some ⟨ntohs_at abuf data, ntohs_at abuf (data + 2),
                  ntohs_at abuf (data + 4), host⟩ :: rest)
        else
          match spec_answer_slots expand abuf alen n (data + rdlen) with
          | .error e => .error e
          | .ok rest => .ok (none :: rest)

/-- An IN/TXT answer owned by the root name, with TTL 60, whose 20 data
bytes read like a record of their own: a root owner name, a fixed header
for IN/SRV with 9 data bytes, the fields 9, 9, 8080 and the name `x`. -/
def txt_answer_with_record : List Nat :=
  [0, 0, 16, 0, 1, 0, 0, 0, 60, 0, 20,
    0, 0, 33, 0, 1, 0, 0, 0, 60, 0, 9, 0, 9, 0, 9, 0x1f, 0x90, 1, 120, 0]

/-- A 68-byte well-formed message with two answers: the TXT record above at
offset 17, whose data fill the offsets 28 to 47, then at offset 48 the
answer SRV (1, 2, 389, host `a`). -/
def msg_record_in_data : List Nat :=
  dns_header 1 2 ++ dns_question ++ txt_answer_with_record
    ++ srv_answer 1 2 389 [1, 97, 0]

theorem expand_labels_within (abuf : Mem) (alen : Int) (start : Nat) :
    ∀ (fuel p : Nat) (acc name : List Nat) (len : Nat), start ≤ p →
      expand_labels abuf alen start fuel p acc = .ok (name, len) →
      ((start + len : Nat) : Int) ≤ alen := by
  intro fuel
  induction fuel with
  | zero => intro p acc name len _ h; simp [expand_labels] at h
  | succ f ih =>
    intro p acc name len hp h
    simp only [expand_labels] at h
    split_ifs at h with h1 h2 h3 h4
    · simp only [Except.ok.injEq, Prod.mk.injEq] at h
      obtain ⟨-, rfl⟩ := h
      have : start + (p + 1 - start) = p + 1 := by omega
      rw [this]; omega
    all_goals exact ih _ _ _ _ (by omega) h

theorem label_expander_within (p : Nat) (abuf : Mem) (alen : Int)
    (name : List Nat) (len : Nat)
    (h : label_expander p abuf alen = .ok (name, len)) :
    ((p + len : Nat) : Int) ≤ alen :=
  expand_labels_within abuf alen p _ p [] name len (le_refl p) h

/-! ## Case equations of `_ares_parse_srv_reply` -/

theorem parse_eq_question_err (expand : Expander) (malloc_ok : Bool) (abuf : Mem)
    (alen : Int) (e : expand_err) (h1 : ¬ alen < (HFIXEDSZ : Int))
    (h2 : DNS_HEADER_QDCOUNT abuf = 1) (h3 : DNS_HEADER_ANCOUNT abuf ≠ 0)
    (hq : expand HFIXEDSZ abuf alen = .error e) :
    _ares_parse_srv_reply expand malloc_ok abuf alen = ⟨e.status, none, 0, [4, 5, 6, 7]⟩ := by
  unfold _ares_parse_srv_reply
  simp only [h1, h2, h3, hq, if_false, ne_eq, not_true_eq_false]

theorem parse_eq_question_ok (expand : Expander) (malloc_ok : Bool) (abuf : Mem)
    (alen : Int) (nm : List Nat) (len : Nat) (h1 : ¬ alen < (HFIXEDSZ : Int))
    (h2 : DNS_HEADER_QDCOUNT abuf = 1) (h3 : DNS_HEADER_ANCOUNT abuf ≠ 0)
    (hq : expand HFIXEDSZ abuf alen = .ok (nm, len)) :
    _ares_parse_srv_reply expand malloc_ok abuf alen =
      if ((HFIXEDSZ + len + QFIXEDSZ : Nat) : Int) > alen then
        ⟨ARES_EBADRESP, none, 0, [4, 5, 6, 7]⟩
      else if !malloc_ok then ⟨ARES_ENOMEM, none, 0, [4, 5, 6, 7]⟩
      else after_loop (DNS_HEADER_ANCOUNT abuf)
        (answer_loop expand abuf alen (DNS_HEADER_ANCOUNT abuf) 0
          (HFIXEDSZ + len + QFIXEDSZ)
          (List.replicate (DNS_HEADER_ANCOUNT abuf) none) [4, 5, 6, 7]) := by
  unfold _ares_parse_srv_reply after_loop
  simp only [h1, h2, h3, hq, if_false, ne_eq, not_true_eq_false]

theorem answer_loop_srv_section (expand : Expander) (abuf : Mem) (alen : Int) :
    ∀ (recs : List srv_reply) (cur : Nat) (pre : List (Option srv_reply))
      (rd : List Nat), srv_section expand abuf alen cur recs →
      ∃ rd2, answer_loop expand abuf alen recs.length pre.length cur
        (pre ++ List.replicate recs.length none) rd
          = (ARES_SUCCESS, pre ++ recs.map some, rd2) := by
  intro recs
  induction recs with
  | nil => intro cur pre rd _; exact ⟨rd, by simp [answer_loop]⟩
  | cons r rs ih =>
    intro cur pre rd h
    obtain ⟨owner, olen, hlen, ho, hc, ht, hl, hfit, hp, hw, hpo, hh, hrest⟩ := h
    have hfix : ¬ ((cur + olen + RRFIXEDSZ : Nat) : Int) > alen := by
      push_cast at hfit ⊢; omega
    have hl6 : ¬ DNS_RR_LEN abuf (cur + olen) < 6 := by omega
    obtain ⟨rd2, h2⟩ := ih (cur + olen + RRFIXEDSZ + 6 + hlen) (pre ++ [some r])
      (rd ++ [cur + olen, cur + olen + 1, cur + olen + 2, cur + olen + 3,
          cur + olen + 8, cur + olen + 9]
        ++ [cur + olen + RRFIXEDSZ, cur + olen + RRFIXEDSZ + 1,
          cur + olen + RRFIXEDSZ + 2, cur + olen + RRFIXEDSZ + 3,
          cur + olen + RRFIXEDSZ + 4, cur + olen + RRFIXEDSZ + 5]) hrest
    refine ⟨rd2, ?_⟩
    have hset : (pre ++ List.replicate (rs.length + 1) none).set pre.length
        (some r) = (pre ++ [some r]) ++ List.replicate rs.length none := by
      rw [List.set_append_right _ _ (le_refl _)]
      simp [List.replicate_succ]
    have hr : (⟨ntohs_at abuf (cur + olen + RRFIXEDSZ),
        ntohs_at abuf (cur + olen + RRFIXEDSZ + 2),
        ntohs_at abuf (cur + olen + RRFIXEDSZ + 4), r.host⟩ : srv_reply) = r := by
      rw [← hp, ← hw, ← hpo]
    rw [List.length_cons, answer_loop]
    simp only [ho, hfix, hc, ht, hl6, hh, hr, hset, if_false, and_self, if_true]
    rw [List.length_append, List.length_singleton] at h2
    rw [h2]
    simp

/-! ## Claims on `_ares_parse_srv_reply` -/

/-- C1 (the code departs from the claim): on the 28-byte message
`msg_srv_cut`, decoded with an expander that never leaves the buffer, the
function dereferences the offsets 28 to 33, all at or past `alen = 28`,
when it reads priority, weight and port of the SRV answer. -/
theorem C1_srv_fields_read_past_alen :
    (∀ p name len, label_expander p (memOf msg_srv_cut) 28 = .ok (name, len) →
        ((p + len : Nat) : Int) ≤ 28) ∧
    DNS_RR_CLASS (memOf msg_srv_cut) 18 = C_IN ∧
    DNS_RR_TYPE (memOf msg_srv_cut) 18 = T_SRV ∧
    6 ≤ DNS_RR_LEN (memOf msg_srv_cut) 18 ∧
    (_ares_parse_srv_reply label_expander true (memOf msg_srv_cut) 28).reads
      = [4, 5, 6, 7, 18, 19, 20, 21, 26, 27, 28, 29, 30, 31, 32, 33] ∧
    ¬ ∀ o ∈ (_ares_parse_srv_reply label_expander true (memOf msg_srv_cut) 28).reads,
        (o : Int) < 28 := by
  refine ⟨fun p name len h => label_expander_within p _ 28 name len h,
    by decide, by decide, by decide, by decide, by decide⟩

/-- C2 (the code departs from the claim): on the well-formed message
`msg_one_a`, whose single answer is an A record, the function succeeds and
reports the raw answer count 1 with slot 0 left unwritten, while the number
of IN/SRV answers, as the specification counts them, is 0. -/
theorem C2_reports_raw_answer_count :
    _ares_parse_srv_reply label_expander true (memOf msg_one_a) 32
      = ⟨ARES_SUCCESS, some [none], 1, [4, 5, 6, 7, 18, 19, 20, 21, 26, 27]⟩ ∧
    DNS_HEADER_ANCOUNT (memOf msg_one_a) = 1 ∧
    (spec_decode label_expander (memOf msg_one_a) 32).toOption = some [] := by
  refine ⟨by decide, by decide, by decide⟩

/-- C3 (the code departs from the claim): on the well-formed message
`msg_srv_a_srv` (SRV, A with a 4-byte payload, SRV) the function does not
move the cursor past the data of the A record, expands a name at the
first byte of the address, and fails with `ARES_EBADNAME` and no records,
while the decoder of the specification returns both SRV records. -/
theorem C3_non_srv_data_not_skipped :
    (_ares_parse_srv_reply label_expander true (memOf msg_srv_a_srv) 72).status
      = ARES_EBADNAME ∧
    (_ares_parse_srv_reply label_expander true (memOf msg_srv_a_srv) 72).srv_out = none ∧
    (_ares_parse_srv_reply label_expander true (memOf msg_srv_a_srv) 72).nsrvreply = 0 ∧
    (spec_decode label_expander (memOf msg_srv_a_srv) 72).toOption
      = some [⟨1, 2, 389, [97]⟩, ⟨3, 4, 636, [98]⟩] := by
  refine ⟨by decide, by decide, by decide, by decide⟩

/-- C4: for a message with question count 1 and answer count `k ≥ 1` whose
answer section is exactly `k` IN/SRV records (`srv_section`), the function
returns `ARES_SUCCESS`, the array holds the `k` records in answer order, each
with the big-endian priority, weight and port of its first six data bytes
and the host the expander returns just after them, and the count is `k`. -/
theorem C4_all_srv_answers_decoded (expand : Expander) (abuf : Mem) (alen : Int)
    (qname : List Nat) (qlen : Nat) (recs : List srv_reply)
    (hlen : (HFIXEDSZ : Int) ≤ alen)
    (hqd : DNS_HEADER_QDCOUNT abuf = 1)
    (han : DNS_HEADER_ANCOUNT abuf = recs.length)
    (hk : 1 ≤ recs.length)
    (hq : expand HFIXEDSZ abuf alen = .ok (qname, qlen))
    (hfit : ((HFIXEDSZ + qlen + QFIXEDSZ : Nat) : Int) ≤ alen)
    (hrecs : srv_section expand abuf alen (HFIXEDSZ + qlen + QFIXEDSZ) recs) :
    (_ares_parse_srv_reply expand true abuf alen).status = ARES_SUCCESS ∧
    (_ares_parse_srv_reply expand true abuf alen).srv_out = some (recs.map some) ∧
    (_ares_parse_srv_reply expand true abuf alen).nsrvreply = recs.length := by
  obtain ⟨rd2, h2⟩ := answer_loop_srv_section expand abuf alen recs
    (HFIXEDSZ + qlen + QFIXEDSZ) [] [4, 5, 6, 7] hrecs
  rw [parse_eq_question_ok expand true abuf alen qname qlen (by omega) hqd (by omega) hq]
  rw [if_neg (by omega), han]
  simp only [List.length_nil, List.nil_append] at h2
  simp [h2, after_loop]

/-- C4 at the two-record message `msg_two_srv`. -/
theorem C4_all_srv_answers_decoded_witness :
    (_ares_parse_srv_reply label_expander true (memOf msg_two_srv) 57).status
      = ARES_SUCCESS ∧
    (_ares_parse_srv_reply label_expander true (memOf msg_two_srv) 57).srv_out
      = some ([⟨1, 2, 389, [97]⟩, ⟨3, 4, 636, [98]⟩].map some) ∧
    (_ares_parse_srv_reply label_expander true (memOf msg_two_srv) 57).nsrvreply
      = [(⟨1, 2, 389, [97]⟩ : srv_reply), ⟨3, 4, 636, [98]⟩].length :=
  C4_all_srv_answers_decoded label_expander (memOf msg_two_srv) 57 [] 1
    [⟨1, 2, 389, [97]⟩, ⟨3, 4, 636, [98]⟩]
    (by decide) (by decide) (by decide) (by decide) (by rfl) (by decide)
    ⟨[], 1, 3, by rfl, by decide, by decide, by decide, by decide, by decide,
      by decide, by decide, by rfl,
      ⟨[], 1, 3, by rfl, by decide, by decide, by decide, by decide, by decide,
        by decide, by decide, by rfl, trivial⟩⟩

/-- C5: whenever `_ares_parse_srv_reply` returns a status other than
`ARES_SUCCESS`, `*srv_out` is `NULL` and `*nsrvreply` is 0, for every
expander, allocation outcome, buffer and length. -/
theorem C5_failure_exposes_nothing (expand : Expander) (malloc_ok : Bool)
    (abuf : Mem) (alen : Int)
    (h : (_ares_parse_srv_reply expand malloc_ok abuf alen).status ≠ ARES_SUCCESS) :
    (_ares_parse_srv_reply expand malloc_ok abuf alen).srv_out = none ∧
    (_ares_parse_srv_reply expand malloc_ok abuf alen).nsrvreply = 0 := by
  by_cases h1 : alen < (HFIXEDSZ : Int)
  · simp [_ares_parse_srv_reply, h1]
  by_cases h2 : DNS_HEADER_QDCOUNT abuf = 1
  swap
  · simp [_ares_parse_srv_reply, h1, h2]
  by_cases h3 : DNS_HEADER_ANCOUNT abuf = 0
  · simp [_ares_parse_srv_reply, h1, h2, h3]
  cases hq : expand HFIXEDSZ abuf alen with
  | error e => rw [parse_eq_question_err expand malloc_ok abuf alen e h1 h2 h3 hq]; exact ⟨rfl, rfl⟩
  | ok v =>
    obtain ⟨nm, len⟩ := v
    rw [parse_eq_question_ok expand malloc_ok abuf alen nm len h1 h2 h3 hq] at h ⊢
    unfold after_loop at h ⊢
    split_ifs at h ⊢ with h4 h5 h6
    · exact ⟨rfl, rfl⟩
    · exact ⟨rfl, rfl⟩
    · exact ⟨rfl, rfl⟩
    · exact absurd (not_not.mp h6) h

/-- C5 at the message `msg_srv_a_srv`, on which the function fails. -/
theorem C5_failure_exposes_nothing_witness :
    (_ares_parse_srv_reply label_expander true (memOf msg_srv_a_srv) 72).status
      ≠ ARES_SUCCESS ∧
    (_ares_parse_srv_reply label_expander true (memOf msg_srv_a_srv) 72).srv_out = none ∧
    (_ares_parse_srv_reply label_expander true (memOf msg_srv_a_srv) 72).nsrvreply = 0 :=
  ⟨by decide, C5_failure_exposes_nothing label_expander true (memOf msg_srv_a_srv) 72
    (by decide)⟩

/-! ## Lemmas on bytes in memory -/

theorem byteAt_lt (m : Mem) (i : Nat) : byteAt m i < 256 :=
  Nat.mod_lt _ (by norm_num)

theorem be32_at_lt (m : Mem) (p : Nat) : be32_at m p < 2 ^ 32 := by
  have h0 := byteAt_lt m p
  have h1 := byteAt_lt m (p + 1)
  have h2 := byteAt_lt m (p + 2)
  have h3 := byteAt_lt m (p + 3)
  unfold be32_at
  norm_num
  omega

theorem stored_append_left (buf : Mem) (p : Nat) (a b : List Nat)
    (h : stored buf p (a ++ b)) : stored buf p a := by
  intro k hk
  have := h k (by rw [List.length_append]; omega)
  rw [this, List.getD_append _ _ _ _ hk]

theorem stored_append_right (buf : Mem) (p : Nat) (a b : List Nat)
    (h : stored buf p (a ++ b)) : stored buf (p + a.length) b := by
  intro k hk
  have := h (a.length + k) (by rw [List.length_append]; omega)
  rw [add_assoc, this, List.getD_append_right _ _ _ _ (by omega)]
  simp

theorem stored_memOf (l : List Nat) : stored (memOf l) 0 l := by
  intro k _
  simp [memOf]

theorem be32_at_stored (buf : Mem) (p n : Nat) (hn : n < 2 ^ 32)
    (h : stored buf p (be32_bytes n)) : be32_at buf p = n := by
  have h0 := h 0 (by simp [be32_bytes])
  have h1 := h 1 (by simp [be32_bytes])
  have h2 := h 2 (by simp [be32_bytes])
  have h3 := h 3 (by simp [be32_bytes])
  simp only [be32_bytes, List.getD_cons_zero, List.getD_cons_succ, add_zero] at h0 h1 h2 h3
  unfold be32_at byteAt
  rw [h0, h1, h2, h3]
  norm_num at hn ⊢
  omega

theorem bytesAt_succ (m : Mem) (p n : Nat) :
    bytesAt m p (n + 1) = byteAt m p :: bytesAt m (p + 1) n := by
  simp only [bytesAt, List.range_succ_eq_map, List.map_cons, List.map_map, add_zero]
  congr 1
  apply List.map_congr_left
  intro k _
  simp only [Function.comp, Nat.succ_eq_add_one]
  congr 1
  omega

theorem stored_cons (buf : Mem) (p b : Nat) (bs : List Nat)
    (h : stored buf p (b :: bs)) : buf p = b ∧ stored buf (p + 1) bs := by
  constructor
  · simpa using h 0 (by simp)
  · intro k hk
    have := h (k + 1) (by simp; omega)
    rw [List.getD_cons_succ] at this
    rw [← this]
    congr 1
    omega

theorem strnlen_le (m : Mem) : ∀ (n p : Nat), strnlen m p n ≤ n := by
  intro n
  induction n with
  | zero => intro p; simp [strnlen]
  | succ n ih =>
    intro p
    unfold strnlen
    split_ifs
    · omega
    · have := ih (p + 1); omega

theorem strnlen_stored (buf : Mem) : ∀ (body : List Nat) (p : Nat),
    (∀ b ∈ body, 0 < b ∧ b < 256) → stored buf p body →
    strnlen buf p body.length = body.length := by
  intro body
  induction body with
  | nil => intro p _ _; simp [strnlen]
  | cons b bs ih =>
    intro p hb h
    obtain ⟨h0, hrest⟩ := stored_cons buf p b bs h
    have hb0 := hb b (by simp)
    have hne : ¬ byteAt buf p = 0 := by
      unfold byteAt; rw [h0, Nat.mod_eq_of_lt hb0.2]; omega
    rw [List.length_cons, strnlen, if_neg hne,
      ih (p + 1) (fun x hx => hb x (by simp [hx])) hrest]

theorem bytesAt_stored (buf : Mem) : ∀ (body : List Nat) (p : Nat),
    (∀ b ∈ body, b < 256) → stored buf p body →
    bytesAt buf p body.length = body := by
  intro body
  induction body with
  | nil => intro p _ _; simp [bytesAt]
  | cons b bs ih =>
    intro p hb h
    obtain ⟨h0, hrest⟩ := stored_cons buf p b bs h
    have hb0 := hb b (by simp)
    rw [List.length_cons, bytesAt_succ, ih (p + 1) (fun x hx => hb x (by simp [hx])) hrest]
    unfold byteAt
    rw [h0, Nat.mod_eq_of_lt hb0]

/-! ## Lemmas on one field block of `unpack_buffer` -/

/-- A field whose length prefix is zero makes the function return
`EINVAL`, and so does a prefix that does not fit. -/
theorem unpack_field_zero (w : Nat) (ok : Bool) (buf : Mem) (size : Nat)
    (assign : input_buffer → Option (List Nat) → input_buffer) (s : unpack_state)
    (h : be32_at buf s.p = 0) :
    ∃ rd, unpack_field w ok buf size assign s = .error ⟨EINVAL, s.ibuf, rd⟩ := by
  unfold unpack_field SAFEALIGN_COPY_UINT32_CHECK
  by_cases h4 : s.p + 4 > size
  · exact ⟨s.reads, by simp only [h4, if_true]⟩
  · exact ⟨s.reads ++ [s.p, s.p + 1, s.p + 2, s.p + 3],
      by simp only [h4, if_false, h, if_true]⟩

/-- A field with a non-zero declared length that ends within `size` is
decoded when memory is found: the member receives the bytes up to the first
NUL and the cursor moves past the body. -/
theorem unpack_field_fits (w : Nat) (buf : Mem) (size : Nat)
    (assign : input_buffer → Option (List Nat) → input_buffer) (s : unpack_state)
    (hw : size < 2 ^ w) (h0 : be32_at buf s.p ≠ 0)
    (hfit : s.p + 4 + be32_at buf s.p ≤ size) :
    unpack_field w true buf size assign s =
      .ok ⟨assign s.ibuf (some (strndup_bytes buf (s.p + 4) (be32_at buf s.p))),
        s.p + 4 + be32_at buf s.p,
        s.reads ++ [s.p, s.p + 1, s.p + 2, s.p + 3]
          ++ strndup_reads buf (s.p + 4) (be32_at buf s.p)⟩ := by
  have h4 : ¬ s.p + 4 > size := by omega
  have hmod : (s.p + 4 + be32_at buf s.p) % 2 ^ w = s.p + 4 + be32_at buf s.p :=
    Nat.mod_eq_of_lt (by omega)
  have hle : ¬ s.p + 4 + be32_at buf s.p > size := by omega
  unfold unpack_field SAFEALIGN_COPY_UINT32_CHECK
  simp only [h4, if_false, h0, hmod, hle, if_true, reduceCtorEq]

/-- Existential form of `unpack_field_fits`. -/
theorem unpack_field_fits_ex (w : Nat) (buf : Mem) (size : Nat)
    (assign : input_buffer → Option (List Nat) → input_buffer) (s : unpack_state)
    (hw : size < 2 ^ w) (h0 : be32_at buf s.p ≠ 0)
    (hfit : s.p + 4 + be32_at buf s.p ≤ size) :
    ∃ t, unpack_field w true buf size assign s = .ok t ∧
      t.ibuf = assign s.ibuf (some (strndup_bytes buf (s.p + 4) (be32_at buf s.p))) ∧
      t.p = s.p + 4 + be32_at buf s.p :=
  ⟨_, unpack_field_fits w buf size assign s hw h0 hfit, rfl, rfl⟩

/-- A field stored as `frame_field body`, with `body` non-empty, NUL-free and
inside `size`, is decoded to exactly `body`. -/
theorem unpack_field_frame (w : Nat) (buf : Mem) (size : Nat)
    (assign : input_buffer → Option (List Nat) → input_buffer) (s : unpack_state)
    (body : List Nat) (hw : size < 2 ^ w) (hne : body ≠ [])
    (hb : ∀ b ∈ body, 0 < b ∧ b < 256) (hl : body.length < 2 ^ 32)
    (hst : stored buf s.p (frame_field body))
    (hfit : s.p + 4 + body.length ≤ size) :
    ∃ t, unpack_field w true buf size assign s = .ok t ∧
      t.ibuf = assign s.ibuf (some body) ∧ t.p = s.p + 4 + body.length := by
  have hlen : be32_at buf s.p = body.length :=
    be32_at_stored buf s.p body.length hl (stored_append_left _ _ _ _ hst)
  have hbody : stored buf (s.p + 4) body := by
    have := stored_append_right _ _ _ _ hst
    simpa [be32_bytes] using this
  have hpos : body.length ≠ 0 := by
    intro h0; exact hne (List.length_eq_zero.mp h0)
  have hdup : strndup_bytes buf (s.p + 4) body.length = body := by
    unfold strndup_bytes
    rw [strnlen_stored buf body (s.p + 4) hb hbody]
    exact bytesAt_stored buf body (s.p + 4) (fun b hb2 => (hb b hb2).2) hbody
  obtain ⟨t, e, hi, hp⟩ := unpack_field_fits_ex w buf size assign s hw
    (by rw [hlen]; exact hpos) (by rw [hlen]; exact hfit)
  rw [hlen, hdup] at hi
  rw [hlen] at hp
  exact ⟨t, e, hi, hp⟩

/-- Without wrap-around (`size + 2 ^ 32 ≤ 2 ^ w`), a declared length that
exceeds the bytes remaining before `size` makes the function return
`EINVAL` with `ibuf` untouched by this block. -/
theorem unpack_field_overrun (w : Nat) (ok : Bool) (buf : Mem) (size : Nat)
    (assign : input_buffer → Option (List Nat) → input_buffer) (s : unpack_state)
    (hw : size + 2 ^ 32 ≤ 2 ^ w) (hp : s.p + 4 ≤ size)
    (hover : size - (s.p + 4) < be32_at buf s.p) :
    ∃ rd, unpack_field w ok buf size assign s = .error ⟨EINVAL, s.ibuf, rd⟩ := by
  have hlt := be32_at_lt buf s.p
  have h4 : ¬ s.p + 4 > size := by omega
  have hmod : (s.p + 4 + be32_at buf s.p) % 2 ^ w = s.p + 4 + be32_at buf s.p :=
    Nat.mod_eq_of_lt (by omega)
  have hgt : s.p + 4 + be32_at buf s.p > size := by omega
  unfold unpack_field SAFEALIGN_COPY_UINT32_CHECK
  refine ⟨s.reads ++ [s.p, s.p + 1, s.p + 2, s.p + 3], ?_⟩
  by_cases h0 : be32_at buf s.p = 0
  · simp only [h4, if_false, h0, if_true]
  · simp only [h4, if_false, h0, hmod, hgt, if_true]

theorem mem_strndup_reads (m : Mem) (p n o : Nat) (h : o ∈ strndup_reads m p n) :
    p ≤ o ∧ o < p + n := by
  unfold strndup_reads at h
  simp only [List.mem_map, List.mem_range] at h
  obtain ⟨k, hk, rfl⟩ := h
  omega

/-- Without wrap-around, one field block reads only offsets below `size`. -/
theorem unpack_field_reads_lt (w : Nat) (ok : Bool) (buf : Mem) (size : Nat)
    (assign : input_buffer → Option (List Nat) → input_buffer) (s : unpack_state)
    (hw : size + 2 ^ 32 ≤ 2 ^ w) (hrd : ∀ o ∈ s.reads, o < size) :
    (∀ r, unpack_field w ok buf size assign s = .error r → ∀ o ∈ r.reads, o < size) ∧
    (∀ t, unpack_field w ok buf size assign s = .ok t → ∀ o ∈ t.reads, o < size) := by
  have hlt := be32_at_lt buf s.p
  unfold unpack_field SAFEALIGN_COPY_UINT32_CHECK
  by_cases h4 : s.p + 4 > size
  · simp only [h4, if_true]
    refine ⟨fun r hr o ho => ?_, fun t ht => by simp at ht⟩
    simp only [Except.error.injEq] at hr
    subst hr
    exact hrd o ho
  have hpre4 : ∀ o ∈ s.reads ++ [s.p, s.p + 1, s.p + 2, s.p + 3], o < size := by
    intro o ho
    rw [List.mem_append] at ho
    rcases ho with ho | ho
    · exact hrd o ho
    · simp only [List.mem_cons, List.mem_singleton, List.not_mem_nil, or_false] at ho
      omega
  by_cases h0 : be32_at buf s.p = 0
  · simp only [h4, if_false, h0, if_true]
    refine ⟨fun r hr o ho => ?_, fun t ht => by simp at ht⟩
    simp only [Except.error.injEq] at hr
    subst hr
    exact hpre4 o ho
  have hmod : (s.p + 4 + be32_at buf s.p) % 2 ^ w = s.p + 4 + be32_at buf s.p :=
    Nat.mod_eq_of_lt (by omega)
  by_cases hgt : s.p + 4 + be32_at buf s.p > size
  · simp only [h4, if_false, h0, hmod, hgt, if_true]
    refine ⟨fun r hr o ho => ?_, fun t ht => by simp at ht⟩
    simp only [Except.error.injEq] at hr
    subst hr
    exact hpre4 o ho
  have hall : ∀ o ∈ s.reads ++ [s.p, s.p + 1, s.p + 2, s.p + 3]
      ++ strndup_reads buf (s.p + 4) (be32_at buf s.p), o < size := by
    intro o ho
    rw [List.mem_append] at ho
    rcases ho with ho | ho
    · exact hpre4 o ho
    · have := mem_strndup_reads _ _ _ _ ho
      omega
  cases ok
  · simp only [h4, if_false, h0, hmod, hgt, Bool.false_eq_true, if_true]
    refine ⟨fun r hr o ho => ?_, fun t ht => by simp at ht⟩
    simp only [Except.error.injEq] at hr
    subst hr
    exact hall o ho
  · simp only [h4, if_false, h0, hmod, hgt, if_true, reduceCtorEq]
    refine ⟨fun r hr => by simp at hr, fun t ht o ho => ?_⟩
    simp only [Except.ok.injEq] at ht
    subst ht
    exact hall o ho

/-- Without wrap-around (`size + 2 ^ 32 ≤ 2 ^ w`, as on a 64-bit platform),
`unpack_buffer` reads only offsets below `size`. -/
theorem unpack_buffer_reads_lt (w : Nat) (alloc_ok : Nat → Bool) (buf : Mem)
    (size : Nat) (ibuf : input_buffer) (hw : size + 2 ^ 32 ≤ 2 ^ w) :
    ∀ o ∈ (unpack_buffer w alloc_ok buf size ibuf).reads, o < size := by
  unfold unpack_buffer
  have f1 := unpack_field_reads_lt w (alloc_ok 0) buf size
    (fun b v => { b with seuser := v }) ⟨ibuf, 0, []⟩ hw (by simp)
  cases h1 : unpack_field w (alloc_ok 0) buf size
      (fun b v => { b with seuser := v }) ⟨ibuf, 0, []⟩ with
  | error r => exact f1.1 r h1
  | ok s1 =>
    dsimp only
    have f2 := unpack_field_reads_lt w (alloc_ok 1) buf size
      (fun b v => { b with mls_range := v }) s1 hw (f1.2 s1 h1)
    cases h2 : unpack_field w (alloc_ok 1) buf size
        (fun b v => { b with mls_range := v }) s1 with
    | error r => exact f2.1 r h2
    | ok s2 =>
      dsimp only
      have f3 := unpack_field_reads_lt w (alloc_ok 2) buf size
        (fun b v => { b with username := v }) s2 hw (f2.2 s2 h2)
      cases h3 : unpack_field w (alloc_ok 2) buf size
          (fun b v => { b with username := v }) s2 with
      | error r => exact f3.1 r h3
      | ok s3 => dsimp only; exact f3.2 s3 h3

/-! ## Lemmas on `main` -/

/-- When the request decode fails, `main` performs no action and does not
exit with success. -/
theorem main_decode_failure (env : main_env) (len : Nat)
    (hr : env.read_len = some len)
    (hu : (unpack_buffer env.w env.strndup_ok env.in_buf len ⟨none, none, none⟩).ret
      ≠ EOK) :
    (main env).2 = [] ∧ (main env).1 ≠ EXIT_SUCCESS := by
  unfold main
  simp only [hr, hu]
  split_ifs <;> exact ⟨rfl, by decide⟩

/-! ## Claims on `unpack_buffer` -/

/-- C6: for non-empty NUL-free byte strings `seuser`, `mls_range`,
`username`, each shorter than `2 ^ 32`, whose frame length fits `size_t`,
`unpack_buffer` on the frame built from them, with its full length, returns
`EOK` and assigns exactly the three strings (when memory is found). -/
theorem C6_request_round_trip (w : Nat) (alloc_ok : Nat → Bool) (ibuf : input_buffer)
    (seuser mls_range username : List Nat)
    (hs : seuser ≠ []) (hm : mls_range ≠ []) (hu : username ≠ [])
    (hsb : ∀ b ∈ seuser, 0 < b ∧ b < 256)
    (hmb : ∀ b ∈ mls_range, 0 < b ∧ b < 256)
    (hub : ∀ b ∈ username, 0 < b ∧ b < 256)
    (hsl : seuser.length < 2 ^ 32) (hml : mls_range.length < 2 ^ 32)
    (hul : username.length < 2 ^ 32)
    (hsize : (request_frame seuser mls_range username).length < 2 ^ w)
    (halloc : ∀ k, alloc_ok k = true) :
    (unpack_buffer w alloc_ok (memOf (request_frame seuser mls_range username))
      (request_frame seuser mls_range username).length ibuf).ret = EOK ∧
    (unpack_buffer w alloc_ok (memOf (request_frame seuser mls_range username))
      (request_frame seuser mls_range username).length ibuf).ibuf
        = ⟨some seuser, some mls_range, some username⟩ := by
  have hst := stored_memOf (request_frame seuser mls_range username)
  have hflen : ∀ b : List Nat, (frame_field b).length = 4 + b.length := by
    intro b; simp [frame_field, be32_bytes]; omega
  have htot : (request_frame seuser mls_range username).length
      = 4 + seuser.length + (4 + mls_range.length + (4 + username.length)) := by
    simp only [request_frame, List.length_append, hflen]
  have h1 : stored (memOf (request_frame seuser mls_range username)) 0
      (frame_field seuser) := stored_append_left _ _ _ _ hst
  have h23 := stored_append_right _ _ _ _ hst
  have h2 := stored_append_left _ _ _ _ h23
  have h3 := stored_append_right _ _ _ _ h23
  rw [hflen] at h2 h3
  rw [hflen] at h3
  have a2 : 0 + (4 + seuser.length) = 0 + 4 + seuser.length := by omega
  have a3 : 0 + (4 + seuser.length) + (4 + mls_range.length)
      = 0 + 4 + seuser.length + 4 + mls_range.length := by omega
  rw [a2] at h2
  rw [a3] at h3
  obtain ⟨t1, e1, hi1, hp1⟩ := unpack_field_frame w _ _
    (fun b v => { b with seuser := v }) ⟨ibuf, 0, []⟩
    seuser hsize hs hsb hsl h1 (by rw [htot]; dsimp only; omega)
  dsimp only at hp1 hi1
  obtain ⟨t2, e2, hi2, hp2⟩ := unpack_field_frame w _ _
    (fun b v => { b with mls_range := v }) t1
    mls_range hsize hm hmb hml (by rw [hp1]; exact h2) (by rw [htot, hp1]; omega)
  obtain ⟨t3, e3, hi3, hp3⟩ := unpack_field_frame w _ _
    (fun b v => { b with username := v }) t2
    username hsize hu hub hul (by rw [hp2, hp1]; exact h3)
    (by rw [htot, hp2, hp1]; omega)
  unfold unpack_buffer
  rw [halloc 0, halloc 1, halloc 2, e1]
  dsimp only
  rw [e2]
  dsimp only
  rw [e3]
  dsimp only
  rw [hi3, hi2, hi1]
  exact ⟨rfl, rfl⟩

/-- C6 at the strings "unconfined_u", "s0-s0:c0.c1023", "alice" on a 64-bit
platform. -/
theorem C6_request_round_trip_witness :
    (unpack_buffer 64 (fun _ => true)
      (memOf (request_frame str_unconfined_u str_mls str_alice))
      (request_frame str_unconfined_u str_mls str_alice).length
      ⟨none, none, none⟩).ret = EOK ∧
    (unpack_buffer 64 (fun _ => true)
      (memOf (request_frame str_unconfined_u str_mls str_alice))
      (request_frame str_unconfined_u str_mls str_alice).length
      ⟨none, none, none⟩).ibuf
        = ⟨some str_unconfined_u, some str_mls, some str_alice⟩ :=
  C6_request_round_trip 64 (fun _ => true) ⟨none, none, none⟩
    str_unconfined_u str_mls str_alice (by decide) (by decide) (by decide)
    (by decide) (by decide) (by decide) (by decide) (by decide) (by decide)
    (by decide) (fun _ => rfl)

/-- C7 (the code departs from the claim): with a 32-bit `size_t`, on the
memory `buf_wrap` received with length 10, the first field declares
`0xffffffff` bytes where 6 remain, yet `p + len` wraps to 3, the check
passes, `unpack_buffer` returns `EOK`, and `main` calls `set_seuser` and
exits with success. -/
theorem C7_overrun_accepted_when_sum_wraps :
    be32_at (memOf buf_wrap) 0 = 4294967295 ∧
    10 - 4 < be32_at (memOf buf_wrap) 0 ∧
    unpack_buffer 32 (fun _ => true) (memOf buf_wrap) 10 ⟨none, none, none⟩
      = ⟨EOK, ⟨some [255, 255, 255, 255, 255, 255, 120], some [255, 255, 255, 120],
          some [120]⟩,
        [0, 1, 2, 3, 4, 5, 6, 7, 8, 9, 10, 11, 3, 4, 5, 6, 7, 8, 9, 10, 11,
          6, 7, 8, 9, 10, 11]⟩ ∧
    main (env_all_ok 32 buf_wrap 10)
      = (EXIT_SUCCESS,
          [event.set_seuser (some [120]) (some [255, 255, 255, 255, 255, 255, 120])
            (some [255, 255, 255, 120]), event.write [0, 0, 0, 0]]) := by
  refine ⟨by decide, by decide, by decide, by decide⟩

/-- C8: for every buffer and every `size` that is a `size_t` value, a field
of declared length zero makes `unpack_buffer` return `EINVAL`, which is not
`EOK`: the first field; the second one when the first is well-formed
(non-zero length, body within `size`, memory found); the third one when the
first two are. -/
theorem C8_zero_length_field_rejected (w : Nat) (alloc_ok : Nat → Bool) (buf : Mem)
    (size : Nat) (ibuf : input_buffer) (hw : size < 2 ^ w) :
    (be32_at buf 0 = 0 → (unpack_buffer w alloc_ok buf size ibuf).ret = EINVAL) ∧
    (∀ l0, l0 = be32_at buf 0 → l0 ≠ 0 → 4 + l0 ≤ size → alloc_ok 0 = true →
      be32_at buf (4 + l0) = 0 →
      (unpack_buffer w alloc_ok buf size ibuf).ret = EINVAL) ∧
    (∀ l0 l1, l0 = be32_at buf 0 → l0 ≠ 0 → alloc_ok 0 = true →
      l1 = be32_at buf (4 + l0) → l1 ≠ 0 → 4 + l0 + 4 + l1 ≤ size →
      alloc_ok 1 = true → be32_at buf (4 + l0 + 4 + l1) = 0 →
      (unpack_buffer w alloc_ok buf size ibuf).ret = EINVAL) ∧
    EINVAL ≠ EOK := by
  refine ⟨fun hz => ?_, fun l0 hl0 hne0 hfit0 ha0 hz => ?_,
    fun l0 l1 hl0 hne0 ha0 hl1 hne1 hfit1 ha1 hz => ?_, by decide⟩
  · obtain ⟨rd, e⟩ := unpack_field_zero w (alloc_ok 0) buf size
      (fun b v => { b with seuser := v }) ⟨ibuf, 0, []⟩ hz
    unfold unpack_buffer
    rw [e]
  · subst hl0
    obtain ⟨t1, e1, -, hp1⟩ := unpack_field_fits_ex w buf size
      (fun b v => { b with seuser := v }) ⟨ibuf, 0, []⟩ hw hne0
      (by dsimp only; omega)
    have hq1 : t1.p = 4 + be32_at buf 0 := by rw [hp1]
    obtain ⟨rd, e2⟩ := unpack_field_zero w (alloc_ok 1) buf size
      (fun b v => { b with mls_range := v }) t1 (by rw [hq1]; exact hz)
    unfold unpack_buffer
    rw [ha0, e1]
    dsimp only
    rw [e2]
  · subst hl0
    subst hl1
    obtain ⟨t1, e1, -, hp1⟩ := unpack_field_fits_ex w buf size
      (fun b v => { b with seuser := v }) ⟨ibuf, 0, []⟩ hw hne0
      (by dsimp only; omega)
    have hq1 : t1.p = 4 + be32_at buf 0 := by rw [hp1]
    obtain ⟨t2, e2, -, hp2⟩ := unpack_field_fits_ex w buf size
      (fun b v => { b with mls_range := v }) t1 hw (by rw [hq1]; exact hne1)
      (by rw [hq1]; omega)
    rw [hq1] at hp2
    obtain ⟨rd, e3⟩ := unpack_field_zero w (alloc_ok 2) buf size
      (fun b v => { b with username := v }) t2 (by rw [hp2]; exact hz)
    unfold unpack_buffer
    rw [ha0, ha1, e1]
    dsimp only
    rw [e2]
    dsimp only
    rw [e3]

/-- C8 at `frame_zero_mls`, whose second field declares length zero. -/
theorem C8_zero_length_field_rejected_witness :
    (unpack_buffer 64 (fun _ => true) (memOf frame_zero_mls) 21
      ⟨none, none, none⟩).ret = EINVAL :=
  (C8_zero_length_field_rejected 64 (fun _ => true) (memOf frame_zero_mls) 21
    ⟨none, none, none⟩ (by decide)).2.1 1 (by decide) (by decide) (by decide) rfl
    (by decide)

/-- C9 (the code departs from the claim): with a 32-bit `size_t`, on
`buf_past_e` received with length 8, `unpack_buffer` reads the offsets 8 and
9, and its result differs from the one on `buf_past_nul`, which has the same
first 8 bytes. -/
theorem C9_reads_past_size_when_sum_wraps :
    (∀ i, i < 8 → memOf buf_past_e i = memOf buf_past_nul i) ∧
    unpack_buffer 32 (fun _ => true) (memOf buf_past_e) 8 ⟨none, none, none⟩
      = ⟨EINVAL, ⟨some [65, 66, 67, 68, 69], none, none⟩,
        [0, 1, 2, 3, 4, 5, 6, 7, 8, 9, 3, 4, 5, 6]⟩ ∧
    unpack_buffer 32 (fun _ => true) (memOf buf_past_nul) 8 ⟨none, none, none⟩
      = ⟨EINVAL, ⟨some [65, 66, 67, 68], none, none⟩,
        [0, 1, 2, 3, 4, 5, 6, 7, 8, 3, 4, 5, 6]⟩ := by
  refine ⟨by decide, by decide, by decide⟩

/-- C10 (the code departs from the claim): on the 20-byte frame
`frame_nul_seuser`, whose seuser field has declared length 1 and body NUL,
`unpack_buffer` returns `EOK` and `ibuf->seuser` is the empty string. -/
theorem C10_nul_body_gives_empty_field :
    unpack_buffer 64 (fun _ => true) (memOf frame_nul_seuser) 20 ⟨none, none, none⟩
      = ⟨EOK, ⟨some [], some [115, 48], some [97, 108, 105, 99, 101]⟩,
        [0, 1, 2, 3, 4, 5, 6, 7, 8, 9, 10, 11, 12, 13, 14, 15, 16, 17, 18, 19]⟩ := by
  decide

/-! ## The answer loop, pass by pass -/

theorem expand_err_status_ne (e : expand_err) : e.status ≠ ARES_SUCCESS := by
  cases e <;> decide

theorem answer_step_error_ne (expand : Expander) (abuf : Mem) (alen : Int)
    (aptr : Nat) (s : Int) (h : answer_step expand abuf alen aptr = .error s) :
    s ≠ ARES_SUCCESS := by
  unfold answer_step at h
  cases ho : expand aptr abuf alen with
  | error e =>
    simp only [ho, Except.error.injEq] at h
    rw [← h]; exact expand_err_status_ne e
  | ok v =>
    obtain ⟨nm, len⟩ := v
    simp only [ho] at h
    split_ifs at h with h1 h2 h3
    · simp only [Except.error.injEq] at h; rw [← h]; decide
    · simp only [Except.error.injEq] at h; rw [← h]; decide
    · cases ht : expand (aptr + len + RRFIXEDSZ + 6) abuf alen with
      | error e =>
        simp only [ht, Except.error.injEq] at h
        rw [← h]; exact expand_err_status_ne e
      | ok v2 => simp [ht] at h

/-- A pass that leaves the loop gives the loop its status and leaves the
array as it was. -/
theorem answer_loop_step_error (expand : Expander) (abuf : Mem) (alen : Int)
    (n i aptr : Nat) (srv : List (Option srv_reply)) (rd : List Nat) (s : Int)
    (h : answer_step expand abuf alen aptr = .error s) :
    ∃ rd2, answer_loop expand abuf alen (n + 1) i aptr srv rd = (s, srv, rd2) := by
  unfold answer_step at h
  rw [answer_loop]
  cases ho : expand aptr abuf alen with
  | error e =>
    simp only [ho, Except.error.injEq] at h
    exact ⟨rd, by rw [← h]⟩
  | ok v =>
    obtain ⟨nm, len⟩ := v
    simp only [ho] at h ⊢
    split_ifs at h ⊢ with h1 h2 h3
    · simp only [Except.error.injEq] at h; exact ⟨_, by rw [← h]⟩
    · simp only [Except.error.injEq] at h; exact ⟨_, by rw [← h]⟩
    · cases ht : expand (aptr + len + RRFIXEDSZ + 6) abuf alen with
      | error e =>
        simp only [ht, Except.error.injEq] at h
        exact ⟨_, by simp only [ht]; rw [← h]⟩
      | ok v2 => simp [ht] at h

/-- A pass that completes hands the loop on to the next pass with the slot
written and the cursor advanced. -/
theorem answer_loop_step_ok (expand : Expander) (abuf : Mem) (alen : Int)
    (n i aptr : Nat) (srv : List (Option srv_reply)) (rd : List Nat)
    (slot : Option srv_reply) (next : Nat)
    (h : answer_step expand abuf alen aptr = .ok (slot, next)) :
    ∃ rd2, answer_loop expand abuf alen (n + 1) i aptr srv rd
      = answer_loop expand abuf alen n (i + 1) next (write_slot srv i slot) rd2 := by
  unfold answer_step at h
  rw [answer_loop]
  cases ho : expand aptr abuf alen with
  | error e => simp [ho] at h
  | ok v =>
    obtain ⟨nm, len⟩ := v
    simp only [ho] at h ⊢
    split_ifs at h ⊢ with h1 h2 h3
    · cases ht : expand (aptr + len + RRFIXEDSZ + 6) abuf alen with
      | error e => simp [ht] at h
      | ok v2 =>
        obtain ⟨host, len2⟩ := v2
        simp only [ht, Except.ok.injEq, Prod.mk.injEq] at h
        obtain ⟨hs, hn⟩ := h
        refine ⟨rd ++ [aptr + len, aptr + len + 1, aptr + len + 2, aptr + len + 3,
            aptr + len + 8, aptr + len + 9]
          ++ [aptr + len + RRFIXEDSZ, aptr + len + RRFIXEDSZ + 1,
            aptr + len + RRFIXEDSZ + 2, aptr + len + RRFIXEDSZ + 3,
            aptr + len + RRFIXEDSZ + 4, aptr + len + RRFIXEDSZ + 5], ?_⟩
        simp only [ht]
        rw [← hs, ← hn]
        rfl
    · simp only [Except.ok.injEq, Prod.mk.injEq] at h
      obtain ⟨hs, hn⟩ := h
      refine ⟨rd ++ [aptr + len, aptr + len + 1, aptr + len + 2, aptr + len + 3,
        aptr + len + 8, aptr + len + 9], ?_⟩
      rw [← hs, ← hn]
      rfl

theorem write_slot_append (pre tail : List (Option srv_reply)) (j : Nat)
    (slot : Option srv_reply) :
    write_slot (pre ++ List.replicate (j + 1) none ++ tail) pre.length slot
      = (pre ++ [slot]) ++ List.replicate j none ++ tail := by
  cases slot with
  | none => simp [write_slot, List.replicate_succ]
  | some r =>
    simp only [write_slot, List.append_assoc]
    rw [List.set_append_right _ _ (le_refl _)]
    simp [List.replicate_succ]

/-- When the first `j` passes complete, the loop over `j + m` passes is the
loop over the last `m` passes, started at the cursor `loop_cursor` gives,
with the slots `loop_slots` gives. -/
theorem answer_loop_run (expand : Expander) (abuf : Mem) (alen : Int) (m : Nat)
    (tail : List (Option srv_reply)) :
    ∀ (j aptr c : Nat) (pre : List (Option srv_reply)) (rd : List Nat),
      loop_cursor expand abuf alen j aptr = some c →
      ∃ rd2, answer_loop expand abuf alen (j + m) pre.length aptr
          (pre ++ List.replicate j none ++ tail) rd
        = answer_loop expand abuf alen m (pre.length + j) c
          (pre ++ loop_slots expand abuf alen j aptr ++ tail) rd2 := by
  intro j
  induction j with
  | zero =>
    intro aptr c pre rd h
    simp only [loop_cursor, Option.some.injEq] at h
    subst h
    exact ⟨rd, by simp [loop_slots]⟩
  | succ j ih =>
    intro aptr c pre rd h
    unfold loop_cursor at h
    cases hs : answer_step expand abuf alen aptr with
    | error s => simp [hs] at h
    | ok v =>
      obtain ⟨slot, next⟩ := v
      simp only [hs] at h
      obtain ⟨rd1, e1⟩ := answer_loop_step_ok expand abuf alen (j + m) pre.length aptr
        (pre ++ List.replicate (j + 1) none ++ tail) rd slot next hs
      obtain ⟨rd2, e2⟩ := ih next c (pre ++ [slot]) rd1 h
      refine ⟨rd2, ?_⟩
      have hjm : j + 1 + m = j + m + 1 := by omega
      rw [hjm, e1, write_slot_append]
      rw [List.length_append, List.length_singleton] at e2
      rw [e2]
      have hsl : loop_slots expand abuf alen (j + 1) aptr
          = slot :: loop_slots expand abuf alen j next := by
        rw [loop_slots]; simp only [hs]
      rw [hsl]
      have hidx : pre.length + 1 + j = pre.length + (j + 1) := by omega
      rw [hidx]
      simp

theorem loop_slots_length (expand : Expander) (abuf : Mem) (alen : Int) :
    ∀ (j aptr c : Nat), loop_cursor expand abuf alen j aptr = some c →
      (loop_slots expand abuf alen j aptr).length = j := by
  intro j
  induction j with
  | zero => intro aptr c _; simp [loop_slots]
  | succ j ih =>
    intro aptr c h
    unfold loop_cursor at h
    rw [loop_slots]
    cases hs : answer_step expand abuf alen aptr with
    | error s => simp [hs] at h
    | ok v =>
      obtain ⟨slot, next⟩ := v
      simp only [hs] at h ⊢
      rw [List.length_cons, ih next c h]

/-- A loop that ends with `ARES_SUCCESS` has completed all its passes. -/
theorem answer_loop_success_cursor (expand : Expander) (abuf : Mem) (alen : Int) :
    ∀ (n i aptr : Nat) (srv : List (Option srv_reply)) (rd : List Nat),
      (answer_loop expand abuf alen n i aptr srv rd).1 = ARES_SUCCESS →
      ∃ c, loop_cursor expand abuf alen n aptr = some c := by
  intro n
  induction n with
  | zero => intro i aptr srv rd _; exact ⟨aptr, rfl⟩
  | succ n ih =>
    intro i aptr srv rd h
    cases hs : answer_step expand abuf alen aptr with
    | error s =>
      obtain ⟨rd2, e⟩ := answer_loop_step_error expand abuf alen n i aptr srv rd s hs
      rw [e] at h
      exact absurd h (answer_step_error_ne expand abuf alen aptr s hs)
    | ok v =>
      obtain ⟨slot, next⟩ := v
      obtain ⟨rd2, e⟩ := answer_loop_step_ok expand abuf alen n i aptr srv rd slot next hs
      rw [e] at h
      obtain ⟨c, hc⟩ := ih _ _ _ _ h
      exact ⟨c, by rw [loop_cursor]; simp only [hs]; exact hc⟩

/-- Each completed pass `i` starts at the cursor `loop_cursor` gives and
writes the slot `loop_slots` lists at index `i`. -/
theorem loop_slots_get (expand : Expander) (abuf : Mem) (alen : Int) :
    ∀ (n aptr c i : Nat), loop_cursor expand abuf alen n aptr = some c → i < n →
      ∃ ci slot next, loop_cursor expand abuf alen i aptr = some ci ∧
        answer_step expand abuf alen ci = .ok (slot, next) ∧
        (loop_slots expand abuf alen n aptr).getD i none = slot := by
  intro n
  induction n with
  | zero => intro aptr c i _ hi; omega
  | succ n ih =>
    intro aptr c i h hi
    unfold loop_cursor at h
    cases hs : answer_step expand abuf alen aptr with
    | error s => simp [hs] at h
    | ok v =>
      obtain ⟨slot, next⟩ := v
      simp only [hs] at h
      have hsl : loop_slots expand abuf alen (n + 1) aptr
          = slot :: loop_slots expand abuf alen n next := by
        rw [loop_slots]; simp only [hs]
      cases i with
      | zero => exact ⟨aptr, slot, next, rfl, hs, by rw [hsl]; rfl⟩
      | succ i =>
        obtain ⟨ci, sl, nx, h1, h2, h3⟩ := ih next c i h (by omega)
        refine ⟨ci, sl, nx, ?_, h2, ?_⟩
        · rw [loop_cursor]; simp only [hs]; exact h1
        · rw [hsl, List.getD_cons_succ]; exact h3

/-- What a completed pass at cursor `c` has done: the owner name expanded,
and either the record is IN/SRV and the slot holds its three fields and the
expanded target, or it is not and the slot is not written. -/
theorem answer_step_ok_slot (expand : Expander) (abuf : Mem) (alen : Int)
    (c : Nat) (slot : Option srv_reply) (next : Nat)
    (h : answer_step expand abuf alen c = .ok (slot, next)) :
    ∃ owner olen, expand c abuf alen = .ok (owner, olen) ∧
      ((DNS_RR_CLASS abuf (c + olen) = C_IN ∧ DNS_RR_TYPE abuf (c + olen) = T_SRV ∧
        ∃ host hlen, expand (c + olen + RRFIXEDSZ + 6) abuf alen = .ok (host, hlen) ∧
          slot = some ⟨ntohs_at abuf (c + olen + RRFIXEDSZ),
            ntohs_at abuf (c + olen + RRFIXEDSZ + 2),
            ntohs_at abuf (c + olen + RRFIXEDSZ + 4), host⟩) ∨
       (¬ (DNS_RR_CLASS abuf (c + olen) = C_IN ∧ DNS_RR_TYPE abuf (c + olen) = T_SRV) ∧
        slot = none)) := by
  unfold answer_step at h
  cases ho : expand c abuf alen with
  | error e => simp [ho] at h
  | ok v =>
    obtain ⟨nm, len⟩ := v
    refine ⟨nm, len, rfl, ?_⟩
    simp only [ho] at h
    split_ifs at h with h1 h2 h3
    · cases ht : expand (c + len + RRFIXEDSZ + 6) abuf alen with
      | error e => simp [ht] at h
      | ok v2 =>
        obtain ⟨host, len2⟩ := v2
        simp only [ht, Except.ok.injEq, Prod.mk.injEq] at h
        exact Or.inl ⟨h2.1, h2.2, host, len2, rfl, h.1.symm⟩
    · simp only [Except.ok.injEq, Prod.mk.injEq] at h
      exact Or.inr ⟨h2, h.1.symm⟩

theorem srv_section_to_cursor (expand : Expander) (abuf : Mem) (alen : Int) :
    ∀ (recs : List srv_reply) (cur stop : Nat),
      srv_section_to expand abuf alen cur recs stop →
      loop_cursor expand abuf alen recs.length cur = some stop := by
  intro recs
  induction recs with
  | nil => intro cur stop h; simp only [srv_section_to] at h; subst h; rfl
  | cons r rs ih =>
    intro cur stop h
    obtain ⟨owner, olen, hlen, ho, hc, ht, hl, hfit, -, -, -, hh, hrest⟩ := h
    have hfix : ¬ ((cur + olen + RRFIXEDSZ : Nat) : Int) > alen := by
      push_cast at hfit ⊢; omega
    have hl6 : ¬ DNS_RR_LEN abuf (cur + olen) < 6 := by omega
    rw [List.length_cons, loop_cursor, answer_step]
    simp only [ho, hfix, hc, ht, hl6, hh, if_false, and_self, if_true]
    exact ih _ _ hrest

/-- The result of `_ares_parse_srv_reply` when, after the header checks, the
question and the allocation, pass `j` of the loop leaves it with status
`s`: that status, and nothing exposed. -/
theorem parse_loop_leaves (expand : Expander) (abuf : Mem) (alen : Int)
    (qname : List Nat) (qlen j c : Nat) (s : Int)
    (h1 : ¬ alen < (HFIXEDSZ : Int)) (h2 : DNS_HEADER_QDCOUNT abuf = 1)
    (hq : expand HFIXEDSZ abuf alen = .ok (qname, qlen))
    (hfit : ¬ ((HFIXEDSZ + qlen + QFIXEDSZ : Nat) : Int) > alen)
    (hj : j < DNS_HEADER_ANCOUNT abuf)
    (hc : loop_cursor expand abuf alen j (HFIXEDSZ + qlen + QFIXEDSZ) = some c)
    (hs : answer_step expand abuf alen c = .error s) :
    (_ares_parse_srv_reply expand true abuf alen).status = s ∧
    (_ares_parse_srv_reply expand true abuf alen).srv_out = none ∧
    (_ares_parse_srv_reply expand true abuf alen).nsrvreply = 0 := by
  have h3 : DNS_HEADER_ANCOUNT abuf ≠ 0 := by omega
  obtain ⟨m, hm⟩ : ∃ m, DNS_HEADER_ANCOUNT abuf = j + (m + 1) :=
    ⟨DNS_HEADER_ANCOUNT abuf - j - 1, by omega⟩
  obtain ⟨rd1, e1⟩ := answer_loop_run expand abuf alen (m + 1)
    (List.replicate (m + 1) none) j (HFIXEDSZ + qlen + QFIXEDSZ) c [] [4, 5, 6, 7] hc
  simp only [List.length_nil, List.nil_append, zero_add] at e1
  obtain ⟨rd2, e2⟩ := answer_loop_step_error expand abuf alen m j c
    (loop_slots expand abuf alen j (HFIXEDSZ + qlen + QFIXEDSZ)
      ++ List.replicate (m + 1) none) rd1 s hs
  have hne := answer_step_error_ne expand abuf alen c s hs
  rw [parse_eq_question_ok expand true abuf alen qname qlen h1 h2 h3 hq, if_neg hfit]
  simp only [Bool.not_true, Bool.false_eq_true, if_false]
  rw [hm, List.replicate_add, e1, e2]
  simp only [after_loop, ne_eq, hne, not_false_eq_true, if_true, and_self]

/-- A successful `_ares_parse_srv_reply` has passed the header checks,
expanded the question, found memory and run the loop to `ARES_SUCCESS`. -/
theorem parse_success_inv (expand : Expander) (malloc_ok : Bool) (abuf : Mem)
    (alen : Int)
    (h : (_ares_parse_srv_reply expand malloc_ok abuf alen).status = ARES_SUCCESS) :
    ∃ qname qlen, expand HFIXEDSZ abuf alen = .ok (qname, qlen) ∧
      _ares_parse_srv_reply expand malloc_ok abuf alen
        = after_loop (DNS_HEADER_ANCOUNT abuf)
          (answer_loop expand abuf alen (DNS_HEADER_ANCOUNT abuf) 0
            (HFIXEDSZ + qlen + QFIXEDSZ)
            (List.replicate (DNS_HEADER_ANCOUNT abuf) none) [4, 5, 6, 7]) ∧
      (answer_loop expand abuf alen (DNS_HEADER_ANCOUNT abuf) 0
        (HFIXEDSZ + qlen + QFIXEDSZ)
        (List.replicate (DNS_HEADER_ANCOUNT abuf) none) [4, 5, 6, 7]).1 = ARES_SUCCESS := by
  by_cases h1 : alen < (HFIXEDSZ : Int)
  · simp [_ares_parse_srv_reply, h1, ARES_EBADRESP, ARES_SUCCESS] at h
  by_cases h2 : DNS_HEADER_QDCOUNT abuf = 1
  swap
  · simp [_ares_parse_srv_reply, h1, h2, ARES_EBADRESP, ARES_SUCCESS] at h
  by_cases h3 : DNS_HEADER_ANCOUNT abuf = 0
  · simp [_ares_parse_srv_reply, h1, h2, h3, ARES_ENODATA, ARES_SUCCESS] at h
  cases hq : expand HFIXEDSZ abuf alen with
  | error e =>
    rw [parse_eq_question_err expand malloc_ok abuf alen e h1 h2 h3 hq] at h
    exact absurd h (expand_err_status_ne e)
  | ok v =>
    obtain ⟨nm, len⟩ := v
    refine ⟨nm, len, rfl, ?_⟩
    rw [parse_eq_question_ok expand malloc_ok abuf alen nm len h1 h2 h3 hq] at h ⊢
    split_ifs at h ⊢ with h4 h5
    · exact absurd h (by decide)
    · exact absurd h (by decide)
    · refine ⟨rfl, ?_⟩
      unfold after_loop at h
      split_ifs at h with h6
      · exact absurd h h6
      · exact h

/-! ## Further lemmas on `unpack_buffer` -/

/-- What one field block does to `ibuf`: when the function returns, the
member is as before or `NULL` after a failed allocation; when control goes
on, the member holds a string. -/
theorem unpack_field_ibuf (w : Nat) (ok : Bool) (buf : Mem) (size : Nat)
    (assign : input_buffer → Option (List Nat) → input_buffer) (s : unpack_state) :
    (∀ r, unpack_field w ok buf size assign s = .error r →
      r.ret ≠ EOK ∧ (r.ibuf = s.ibuf ∨ r.ibuf = assign s.ibuf none)) ∧
    (∀ t, unpack_field w ok buf size assign s = .ok t →
      ∃ str, t.ibuf = assign s.ibuf (some str)) := by
  unfold unpack_field SAFEALIGN_COPY_UINT32_CHECK
  by_cases h4 : s.p + 4 > size
  · simp only [h4, if_true]
    refine ⟨fun r hr => ?_, fun t ht => by simp at ht⟩
    simp only [Except.error.injEq] at hr
    subst hr
    exact ⟨show EINVAL ≠ EOK by decide, Or.inl rfl⟩
  by_cases h0 : be32_at buf s.p = 0
  · simp only [h4, if_false, h0, if_true]
    refine ⟨fun r hr => ?_, fun t ht => by simp at ht⟩
    simp only [Except.error.injEq] at hr
    subst hr
    exact ⟨show EINVAL ≠ EOK by decide, Or.inl rfl⟩
  by_cases hgt : (s.p + 4 + be32_at buf s.p) % 2 ^ w > size
  · simp only [h4, if_false, h0, hgt, if_true]
    refine ⟨fun r hr => ?_, fun t ht => by simp at ht⟩
    simp only [Except.error.injEq] at hr
    subst hr
    exact ⟨show EINVAL ≠ EOK by decide, Or.inl rfl⟩
  cases ok
  · simp only [h4, if_false, h0, hgt, Bool.false_eq_true, if_true]
    refine ⟨fun r hr => ?_, fun t ht => by simp at ht⟩
    simp only [Except.error.injEq] at hr
    subst hr
    exact ⟨show ENOMEM ≠ EOK by decide, Or.inr rfl⟩
  · simp only [h4, if_false, h0, hgt, if_true, reduceCtorEq]
    refine ⟨fun r hr => by simp at hr, fun t ht => ?_⟩
    simp only [Except.ok.injEq] at ht
    subst ht
    exact ⟨_, rfl⟩

/-- A field block that lets control go on for the received length `size`
does the same for every larger received length over the same memory. -/
theorem unpack_field_mono (w : Nat) (ok : Bool) (buf : Mem) (size size2 : Nat)
    (assign : input_buffer → Option (List Nat) → input_buffer) (s t : unpack_state)
    (hle : size ≤ size2) (h : unpack_field w ok buf size assign s = .ok t) :
    unpack_field w ok buf size2 assign s = .ok t := by
  unfold unpack_field SAFEALIGN_COPY_UINT32_CHECK at h ⊢
  by_cases h4 : s.p + 4 > size
  · simp [h4] at h
  by_cases h0 : be32_at buf s.p = 0
  · simp [h4, h0] at h
  by_cases hgt : (s.p + 4 + be32_at buf s.p) % 2 ^ w > size
  · simp [h4, h0, hgt] at h
  have h4b : ¬ s.p + 4 > size2 := by omega
  have hgtb : ¬ (s.p + 4 + be32_at buf s.p) % 2 ^ w > size2 := by omega
  simp only [h4, if_false, h0, hgt] at h
  simp only [h4b, if_false, h0, hgtb]
  exact h

/-- A return with `EOK` means all three field blocks let control go on. -/
theorem unpack_buffer_eok_inv (w : Nat) (alloc_ok : Nat → Bool) (buf : Mem)
    (size : Nat) (ibuf : input_buffer)
    (h : (unpack_buffer w alloc_ok buf size ibuf).ret = EOK) :
    ∃ s1 s2 s3,
      unpack_field w (alloc_ok 0) buf size (fun b v => { b with seuser := v })
        ⟨ibuf, 0, []⟩ = .ok s1 ∧
      unpack_field w (alloc_ok 1) buf size (fun b v => { b with mls_range := v })
        s1 = .ok s2 ∧
      unpack_field w (alloc_ok 2) buf size (fun b v => { b with username := v })
        s2 = .ok s3 ∧
      unpack_buffer w alloc_ok buf size ibuf = ⟨EOK, s3.ibuf, s3.reads⟩ := by
  unfold unpack_buffer at h ⊢
  cases h1 : unpack_field w (alloc_ok 0) buf size
      (fun b v => { b with seuser := v }) ⟨ibuf, 0, []⟩ with
  | error r =>
    simp only [h1] at h
    exact absurd h ((unpack_field_ibuf _ _ _ _ _ _).1 r h1).1
  | ok s1 =>
    simp only [h1] at h ⊢
    cases h2 : unpack_field w (alloc_ok 1) buf size
        (fun b v => { b with mls_range := v }) s1 with
    | error r =>
      simp only [h2] at h
      exact absurd h ((unpack_field_ibuf _ _ _ _ _ _).1 r h2).1
    | ok s2 =>
      simp only [h2] at h ⊢
      cases h3 : unpack_field w (alloc_ok 2) buf size
          (fun b v => { b with username := v }) s2 with
      | error r =>
        simp only [h3] at h
        exact absurd h ((unpack_field_ibuf _ _ _ _ _ _).1 r h3).1
      | ok s3 => exact ⟨s1, s2, s3, rfl, h2, h3, rfl⟩

theorem strnlen_agree (m m2 : Mem) : ∀ (n p : Nat),
    (∀ k, k < n → byteAt m2 (p + k) = byteAt m (p + k)) →
    strnlen m2 p n = strnlen m p n := by
  intro n
  induction n with
  | zero => intro p _; simp [strnlen]
  | succ n ih =>
    intro p h
    have h0 := h 0 (by omega)
    rw [add_zero] at h0
    rw [strnlen, strnlen, h0, ih (p + 1) (fun k hk => by
      have := h (k + 1) (by omega)
      rw [show p + 1 + k = p + (k + 1) by omega]; exact this)]

theorem bytesAt_agree (m m2 : Mem) (p n : Nat)
    (h : ∀ k, k < n → byteAt m2 (p + k) = byteAt m (p + k)) :
    bytesAt m2 p n = bytesAt m p n := by
  unfold bytesAt
  apply List.map_congr_left
  intro k hk
  exact h k (List.mem_range.mp hk)

/-- Without wrap-around, one field block gives the same result on two
memories that hold the same first `size` bytes. -/
theorem unpack_field_agree (w : Nat) (ok : Bool) (buf buf2 : Mem) (size : Nat)
    (assign : input_buffer → Option (List Nat) → input_buffer) (s : unpack_state)
    (hw : size + 2 ^ 32 ≤ 2 ^ w) (hag : ∀ i, i < size → buf2 i = buf i) :
    unpack_field w ok buf2 size assign s = unpack_field w ok buf size assign s := by
  have hb : ∀ i, i < size → byteAt buf2 i = byteAt buf i := by
    intro i hi; unfold byteAt; rw [hag i hi]
  unfold unpack_field SAFEALIGN_COPY_UINT32_CHECK
  by_cases h4 : s.p + 4 > size
  · simp only [h4, if_true]
  have hlen : be32_at buf2 s.p = be32_at buf s.p := by
    unfold be32_at
    rw [hb _ (by omega), hb _ (by omega), hb _ (by omega), hb _ (by omega)]
  have hlt := be32_at_lt buf s.p
  simp only [h4, if_false, hlen]
  by_cases h0 : be32_at buf s.p = 0
  · simp only [h0, if_true]
  have hmod : (s.p + 4 + be32_at buf s.p) % 2 ^ w = s.p + 4 + be32_at buf s.p :=
    Nat.mod_eq_of_lt (by omega)
  by_cases hgt : s.p + 4 + be32_at buf s.p > size
  · simp only [h0, if_false, hmod, hgt, if_true]
  have hk : ∀ k, k < be32_at buf s.p →
      byteAt buf2 (s.p + 4 + k) = byteAt buf (s.p + 4 + k) :=
    fun k hk => hb _ (by omega)
  have hn := strnlen_agree buf buf2 (be32_at buf s.p) (s.p + 4) hk
  have hle := strnlen_le buf (be32_at buf s.p) (s.p + 4)
  have hby : strndup_bytes buf2 (s.p + 4) (be32_at buf s.p)
      = strndup_bytes buf (s.p + 4) (be32_at buf s.p) := by
    unfold strndup_bytes
    rw [hn]
    exact bytesAt_agree buf buf2 _ _ (fun k hk2 => hk k (by omega))
  have hrd : strndup_reads buf2 (s.p + 4) (be32_at buf s.p)
      = strndup_reads buf (s.p + 4) (be32_at buf s.p) := by
    unfold strndup_reads
    rw [hn]
  simp only [h0, if_false, hmod, hgt, hby, hrd]

/-- Without wrap-around (`size + 2 ^ 32 ≤ 2 ^ w`), the result of
`unpack_buffer` depends only on the first `size` bytes of `buf`. -/
theorem unpack_buffer_agree (w : Nat) (alloc_ok : Nat → Bool) (buf buf2 : Mem)
    (size : Nat) (ibuf : input_buffer) (hw : size + 2 ^ 32 ≤ 2 ^ w)
    (hag : ∀ i, i < size → buf2 i = buf i) :
    unpack_buffer w alloc_ok buf2 size ibuf = unpack_buffer w alloc_ok buf size ibuf := by
  unfold unpack_buffer
  simp only [unpack_field_agree w _ buf buf2 size _ _ hw hag]

/-! ## The actions of `main` -/

/-- The actions of `main` are none, the privileged action alone, or the
privileged action followed by one write of the encoding of status 0, the
last only after the privileged action returned `EOK`. -/
theorem main_events (env : main_env) :
    (main env).2 = [] ∨
    (∃ len, env.read_len = some len ∧
      (main env).2 = [event.set_seuser
        (unpack_buffer env.w env.strndup_ok env.in_buf len ⟨none, none, none⟩).ibuf.username
        (unpack_buffer env.w env.strndup_ok env.in_buf len ⟨none, none, none⟩).ibuf.seuser
        (unpack_buffer env.w env.strndup_ok env.in_buf len ⟨none, none, none⟩).ibuf.mls_range]) ∨
    (∃ len, env.read_len = some len ∧
      (unpack_buffer env.w env.strndup_ok env.in_buf len ⟨none, none, none⟩).ret = EOK ∧
      env.set_seuser
        (unpack_buffer env.w env.strndup_ok env.in_buf len ⟨none, none, none⟩).ibuf.username
        (unpack_buffer env.w env.strndup_ok env.in_buf len ⟨none, none, none⟩).ibuf.seuser
        (unpack_buffer env.w env.strndup_ok env.in_buf len ⟨none, none, none⟩).ibuf.mls_range
          = EOK ∧
      (main env).2 = [event.set_seuser
        (unpack_buffer env.w env.strndup_ok env.in_buf len ⟨none, none, none⟩).ibuf.username
        (unpack_buffer env.w env.strndup_ok env.in_buf len ⟨none, none, none⟩).ibuf.seuser
        (unpack_buffer env.w env.strndup_ok env.in_buf len ⟨none, none, none⟩).ibuf.mls_range,
        event.write (SAFEALIGN_SET_UINT32 0)]) := by
  unfold main
  by_cases h1 : env.bad_option = true
  · simp [h1]
  by_cases h2 : env.prg_name_ok = true
  swap
  · simp [h1, h2]
  by_cases h3 : env.main_ctx_ok = true
  swap
  · simp [h1, h2, h3]
  by_cases h4 : env.buf_ok = true
  swap
  · simp [h1, h2, h3, h4]
  by_cases h5 : env.ibuf_ok = true
  swap
  · simp [h1, h2, h3, h4, h5]
  cases hr : env.read_len with
  | none => simp [h1, h2, h3, h4, h5]
  | some len =>
    by_cases hu : (unpack_buffer env.w env.strndup_ok env.in_buf len
        ⟨none, none, none⟩).ret = EOK
    swap
    · simp [h1, h2, h3, h4, h5, hu]
    by_cases hs : env.set_seuser
        (unpack_buffer env.w env.strndup_ok env.in_buf len ⟨none, none, none⟩).ibuf.username
        (unpack_buffer env.w env.strndup_ok env.in_buf len ⟨none, none, none⟩).ibuf.seuser
        (unpack_buffer env.w env.strndup_ok env.in_buf len ⟨none, none, none⟩).ibuf.mls_range
          = EOK
    swap
    · simp [h1, h2, h3, h4, h5, hu, hs]
    simp only [h1, h2, h3, h4, h5, hu, hs, Bool.false_eq_true, if_false, Bool.not_true,
      ne_eq, not_true_eq_false]
    cases env.resp_ok <;> cases env.resp_buf_ok <;>
      simp [prepare_response, pack_buffer, ENOMEM, EOK]
    cases env.write_ret (SAFEALIGN_SET_UINT32 0) with
    | none => simp; exact ⟨hu, hs⟩
    | some written => by_cases hw : written = 4 <;> simp [hw] <;> exact ⟨hu, hs⟩

/-! ## Lemmas for the claims C11, C18 and C19 -/

/-- Whenever the function returns `ARES_SUCCESS`, `*nsrvreply` is the answer
count of the header and the array has that many slots; slot `i` is what pass
`i` of the loop wrote, at the cursor `c` the earlier passes left: when the
record found at that cursor is IN/SRV the slot holds its three fields and
expanded target, and when it is not the slot is left unwritten. The cursor
of a pass is the one the code keeps, which after a record that is not IN/SRV
stands at the start of that record's data. -/
theorem parse_success_slots (expand : Expander) (malloc_ok : Bool)
    (abuf : Mem) (alen : Int)
    (h : (_ares_parse_srv_reply expand malloc_ok abuf alen).status = ARES_SUCCESS) :
    (_ares_parse_srv_reply expand malloc_ok abuf alen).nsrvreply
      = DNS_HEADER_ANCOUNT abuf ∧
    ∃ qname qlen arr, expand HFIXEDSZ abuf alen = .ok (qname, qlen) ∧
      (_ares_parse_srv_reply expand malloc_ok abuf alen).srv_out = some arr ∧
      arr.length = DNS_HEADER_ANCOUNT abuf ∧
      ∀ i, i < DNS_HEADER_ANCOUNT abuf →
        ∃ c owner olen,
          loop_cursor expand abuf alen i (HFIXEDSZ + qlen + QFIXEDSZ) = some c ∧
          expand c abuf alen = .ok (owner, olen) ∧
          ((DNS_RR_CLASS abuf (c + olen) = C_IN ∧ DNS_RR_TYPE abuf (c + olen) = T_SRV ∧
            ∃ host hlen, expand (c + olen + RRFIXEDSZ + 6) abuf alen = .ok (host, hlen) ∧
              arr.getD i none = some ⟨ntohs_at abuf (c + olen + RRFIXEDSZ),
                ntohs_at abuf (c + olen + RRFIXEDSZ + 2),
                ntohs_at abuf (c + olen + RRFIXEDSZ + 4), host⟩) ∨
           (¬ (DNS_RR_CLASS abuf (c + olen) = C_IN ∧
                DNS_RR_TYPE abuf (c + olen) = T_SRV) ∧
            arr.getD i none = none)) := by
  obtain ⟨qname, qlen, hq, e, hs⟩ := parse_success_inv expand malloc_ok abuf alen h
  obtain ⟨cN, hcN⟩ := answer_loop_success_cursor expand abuf alen _ _ _ _ _ hs
  obtain ⟨rd2, e2⟩ := answer_loop_run expand abuf alen 0 [] (DNS_HEADER_ANCOUNT abuf)
    (HFIXEDSZ + qlen + QFIXEDSZ) cN [] [4, 5, 6, 7] hcN
  simp only [List.length_nil, List.nil_append, List.append_nil, add_zero, zero_add,
    answer_loop] at e2
  rw [e, e2]
  simp only [after_loop, ne_eq, not_true_eq_false, if_false, true_and]
  refine ⟨qname, qlen, _, hq, rfl, loop_slots_length expand abuf alen _ _ cN hcN,
    fun i hi => ?_⟩
  obtain ⟨ci, slot, next, h1, h2, h3⟩ := loop_slots_get expand abuf alen _ _ cN i hcN hi
  obtain ⟨owner, olen, ho, hcase⟩ := answer_step_ok_slot expand abuf alen ci slot next h2
  refine ⟨ci, owner, olen, h1, ho, ?_⟩
  rw [h3]
  exact hcase

/-- Over one and the same memory, every received length larger than one on
which `unpack_buffer` returns `EOK` gives `EOK` with the same three strings. -/
theorem unpack_buffer_size_mono (w : Nat) (alloc_ok : Nat → Bool) (buf : Mem)
    (size size2 : Nat) (ibuf : input_buffer) (hle : size ≤ size2)
    (h : (unpack_buffer w alloc_ok buf size ibuf).ret = EOK) :
    (unpack_buffer w alloc_ok buf size2 ibuf).ret = EOK ∧
    (unpack_buffer w alloc_ok buf size2 ibuf).ibuf
      = (unpack_buffer w alloc_ok buf size ibuf).ibuf := by
  obtain ⟨s1, s2, s3, h1, h2, h3, e⟩ := unpack_buffer_eok_inv w alloc_ok buf size ibuf h
  have g1 := unpack_field_mono w (alloc_ok 0) buf size size2 _ _ s1 hle h1
  have g2 := unpack_field_mono w (alloc_ok 1) buf size size2 _ _ s2 hle h2
  have g3 := unpack_field_mono w (alloc_ok 2) buf size size2 _ _ s3 hle h3
  have e2 : unpack_buffer w alloc_ok buf size2 ibuf = ⟨EOK, s3.ibuf, s3.reads⟩ := by
    unfold unpack_buffer
    simp only [g1, g2, g3]
  rw [e, e2]
  exact ⟨rfl, rfl⟩

/-- A field block that proceeds assigns the bytes up to the first NUL of its
body to the member and moves the cursor, in `size_t` arithmetic, past the
declared length. -/
theorem unpack_field_proceeds (w : Nat) (ok : Bool) (buf : Mem) (size : Nat)
    (assign : input_buffer → Option (List Nat) → input_buffer) (s : unpack_state)
    (h : field_proceeds w ok buf size s.p) :
    ∃ rd, unpack_field w ok buf size assign s =
      .ok ⟨assign s.ibuf (some (strndup_bytes buf (s.p + 4) (be32_at buf s.p))),
        (s.p + 4 + be32_at buf s.p) % 2 ^ w, rd⟩ := by
  obtain ⟨h4, h0, hfit, hok⟩ := h
  have h4b : ¬ s.p + 4 > size := by omega
  have hgt : ¬ (s.p + 4 + be32_at buf s.p) % 2 ^ w > size := by omega
  subst hok
  refine ⟨s.reads ++ [s.p, s.p + 1, s.p + 2, s.p + 3]
    ++ strndup_reads buf (s.p + 4) (be32_at buf s.p), ?_⟩
  unfold unpack_field SAFEALIGN_COPY_UINT32_CHECK
  simp only [h4b, if_false, h0, hgt, if_true, reduceCtorEq]

/-- A field block that does not proceed makes the function return an error
with the member as before, or `NULL` and `ENOMEM` when the allocation
failed. -/
theorem unpack_field_stops (w : Nat) (ok : Bool) (buf : Mem) (size : Nat)
    (assign : input_buffer → Option (List Nat) → input_buffer) (s : unpack_state)
    (h : ¬ field_proceeds w ok buf size s.p) :
    ∃ r, unpack_field w ok buf size assign s = .error r ∧ r.ret ≠ EOK ∧
      (r.ibuf = s.ibuf ∨ (r.ret = ENOMEM ∧ r.ibuf = assign s.ibuf none)) := by
  unfold unpack_field SAFEALIGN_COPY_UINT32_CHECK
  by_cases h4 : s.p + 4 > size
  · exact ⟨⟨EINVAL, s.ibuf, s.reads⟩, by simp only [h4, if_true],
      show EINVAL ≠ EOK by decide, Or.inl rfl⟩
  by_cases h0 : be32_at buf s.p = 0
  · exact ⟨⟨EINVAL, s.ibuf, s.reads ++ [s.p, s.p + 1, s.p + 2, s.p + 3]⟩,
      by simp only [h4, if_false, h0, if_true], show EINVAL ≠ EOK by decide, Or.inl rfl⟩
  by_cases hgt : (s.p + 4 + be32_at buf s.p) % 2 ^ w > size
  · exact ⟨⟨EINVAL, s.ibuf, s.reads ++ [s.p, s.p + 1, s.p + 2, s.p + 3]⟩,
      by simp only [h4, if_false, h0, hgt, if_true], show EINVAL ≠ EOK by decide,
      Or.inl rfl⟩
  cases ok
  · exact ⟨⟨ENOMEM, assign s.ibuf none, s.reads ++ [s.p, s.p + 1, s.p + 2, s.p + 3]
        ++ strndup_reads buf (s.p + 4) (be32_at buf s.p)⟩,
      by simp only [h4, if_false, h0, hgt, Bool.false_eq_true, if_true],
      show ENOMEM ≠ EOK by decide, Or.inr ⟨rfl, rfl⟩⟩
  · exact absurd ⟨by omega, h0, by omega, rfl⟩ h

/-- The content of `ibuf` after an error of `unpack_buffer`, by the field
at which decoding stopped. -/
theorem unpack_buffer_after_error (w : Nat) (alloc_ok : Nat → Bool) (buf : Mem)
    (size : Nat) (ibuf : input_buffer)
    (h : (unpack_buffer w alloc_ok buf size ibuf).ret ≠ EOK) :
    (¬ field_proceeds w (alloc_ok 0) buf size 0 →
      ((unpack_buffer w alloc_ok buf size ibuf).ibuf = ibuf ∨
        ((unpack_buffer w alloc_ok buf size ibuf).ret = ENOMEM ∧
          (unpack_buffer w alloc_ok buf size ibuf).ibuf = { ibuf with seuser := none }))) ∧
    (field_proceeds w (alloc_ok 0) buf size 0 →
      ¬ field_proceeds w (alloc_ok 1) buf size ((0 + 4 + be32_at buf 0) % 2 ^ w) →
      ((unpack_buffer w alloc_ok buf size ibuf).ibuf
          = { ibuf with seuser := some (strndup_bytes buf (0 + 4) (be32_at buf 0)) } ∨
        ((unpack_buffer w alloc_ok buf size ibuf).ret = ENOMEM ∧
          (unpack_buffer w alloc_ok buf size ibuf).ibuf
            = { ibuf with seuser := some (strndup_bytes buf (0 + 4) (be32_at buf 0)),
                          mls_range := none }))) ∧
    (field_proceeds w (alloc_ok 0) buf size 0 →
      field_proceeds w (alloc_ok 1) buf size ((0 + 4 + be32_at buf 0) % 2 ^ w) →
      ((unpack_buffer w alloc_ok buf size ibuf).ibuf
          = { ibuf with
              seuser := some (strndup_bytes buf (0 + 4) (be32_at buf 0)),
              mls_range := some (strndup_bytes buf
                ((0 + 4 + be32_at buf 0) % 2 ^ w + 4)
                (be32_at buf ((0 + 4 + be32_at buf 0) % 2 ^ w))) } ∨
        ((unpack_buffer w alloc_ok buf size ibuf).ret = ENOMEM ∧
          (unpack_buffer w alloc_ok buf size ibuf).ibuf
            = { ibuf with
                seuser := some (strndup_bytes buf (0 + 4) (be32_at buf 0)),
                mls_range := some (strndup_bytes buf
                  ((0 + 4 + be32_at buf 0) % 2 ^ w + 4)
                  (be32_at buf ((0 + 4 + be32_at buf 0) % 2 ^ w))),
                username := none }))) := by
  refine ⟨fun n0 => ?_, fun p0 n1 => ?_, fun p0 p1 => ?_⟩
  · obtain ⟨r, e, -, hr⟩ := unpack_field_stops w (alloc_ok 0) buf size
      (fun b v => { b with seuser := v }) ⟨ibuf, 0, []⟩ n0
    have eb : unpack_buffer w alloc_ok buf size ibuf = r := by
      unfold unpack_buffer; rw [e]
    rw [eb]
    exact hr
  · obtain ⟨rd1, e1⟩ := unpack_field_proceeds w (alloc_ok 0) buf size
      (fun b v => { b with seuser := v }) ⟨ibuf, 0, []⟩ p0
    obtain ⟨r, e2, -, hr⟩ := unpack_field_stops w (alloc_ok 1) buf size
      (fun b v => { b with mls_range := v })
      ⟨{ ibuf with seuser := some (strndup_bytes buf (0 + 4) (be32_at buf 0)) },
        (0 + 4 + be32_at buf 0) % 2 ^ w, rd1⟩ n1
    have eb : unpack_buffer w alloc_ok buf size ibuf = r := by
      unfold unpack_buffer; rw [e1]; dsimp only; rw [e2]
    rw [eb]
    exact hr
  · obtain ⟨rd1, e1⟩ := unpack_field_proceeds w (alloc_ok 0) buf size
      (fun b v => { b with seuser := v }) ⟨ibuf, 0, []⟩ p0
    obtain ⟨rd2, e2⟩ := unpack_field_proceeds w (alloc_ok 1) buf size
      (fun b v => { b with mls_range := v })
      ⟨{ ibuf with seuser := some (strndup_bytes buf (0 + 4) (be32_at buf 0)) },
        (0 + 4 + be32_at buf 0) % 2 ^ w, rd1⟩ p1
    by_cases p2 : field_proceeds w (alloc_ok 2) buf size
        (((0 + 4 + be32_at buf 0) % 2 ^ w + 4
          + be32_at buf ((0 + 4 + be32_at buf 0) % 2 ^ w)) % 2 ^ w)
    · obtain ⟨rd3, e3⟩ := unpack_field_proceeds w (alloc_ok 2) buf size
        (fun b v => { b with username := v })
        ⟨{ ibuf with
            seuser := some (strndup_bytes buf (0 + 4) (be32_at buf 0)),
            mls_range := some (strndup_bytes buf
              ((0 + 4 + be32_at buf 0) % 2 ^ w + 4)
              (be32_at buf ((0 + 4 + be32_at buf 0) % 2 ^ w))) },
          ((0 + 4 + be32_at buf 0) % 2 ^ w + 4
            + be32_at buf ((0 + 4 + be32_at buf 0) % 2 ^ w)) % 2 ^ w, rd2⟩ p2
      exfalso
      apply h
      unfold unpack_buffer
      rw [e1]; dsimp only; rw [e2]; dsimp only; rw [e3]
    · obtain ⟨r, e3, -, hr⟩ := unpack_field_stops w (alloc_ok 2) buf size
        (fun b v => { b with username := v })
        ⟨{ ibuf with
            seuser := some (strndup_bytes buf (0 + 4) (be32_at buf 0)),
            mls_range := some (strndup_bytes buf
              ((0 + 4 + be32_at buf 0) % 2 ^ w + 4)
              (be32_at buf ((0 + 4 + be32_at buf 0) % 2 ^ w))) },
          ((0 + 4 + be32_at buf 0) % 2 ^ w + 4
            + be32_at buf ((0 + 4 + be32_at buf 0) % 2 ^ w)) % 2 ^ w, rd2⟩ p2
      have eb : unpack_buffer w alloc_ok buf size ibuf = r := by
        unfold unpack_buffer; rw [e1]; dsimp only; rw [e2]; dsimp only; rw [e3]
      rw [eb]
      exact hr

/-- Without wrap-around, bytes appended after the received length do not
change a successful decode: when `unpack_buffer` returns `EOK` on `buf` with
length `size`, it returns `EOK` with the same strings on every memory that
holds the same first `size` bytes, with every larger length. -/
theorem unpack_buffer_trailing_no_wrap (w : Nat) (alloc_ok : Nat → Bool)
    (buf buf2 : Mem) (size size2 : Nat) (ibuf : input_buffer)
    (hw : size2 + 2 ^ 32 ≤ 2 ^ w) (hle : size ≤ size2)
    (hag : ∀ i, i < size → buf2 i = buf i)
    (h : (unpack_buffer w alloc_ok buf size ibuf).ret = EOK) :
    (unpack_buffer w alloc_ok buf2 size2 ibuf).ret = EOK ∧
    (unpack_buffer w alloc_ok buf2 size2 ibuf).ibuf
      = (unpack_buffer w alloc_ok buf size ibuf).ibuf := by
  have e := unpack_buffer_agree w alloc_ok buf buf2 size ibuf (by omega) hag
  rw [← e] at h ⊢
  exact unpack_buffer_size_mono w alloc_ok buf2 size size2 ibuf hle h

/-! ## Claims C11 to C20 -/

/-- C11 (the claim as stated fails): on the frame `frame_zero_mls`, whose
first field is `a` and whose second field declares length zero,
`unpack_buffer` returns `EINVAL` and `ibuf->seuser`, `NULL` on entry, is
still `a`. -/
theorem C11_earlier_field_kept_on_error :
    (unpack_buffer 64 (fun _ => true) (memOf frame_zero_mls) 21
      ⟨none, none, none⟩).ret = EINVAL ∧
    (unpack_buffer 64 (fun _ => true) (memOf frame_zero_mls) 21
      ⟨none, none, none⟩).ibuf = ⟨some [97], none, none⟩ ∧
    (unpack_buffer 64 (fun _ => true) (memOf frame_zero_mls) 21
      ⟨none, none, none⟩).ibuf ≠ ⟨none, none, none⟩ := by
  refine ⟨by decide, by decide, by decide⟩

/-- C11 (amended): on an error `unpack_buffer` does not restore `ibuf`.
When decoding stops at the first field, `ibuf` is as on entry, or has
`seuser = NULL` when the allocation failed (`ENOMEM`); when the first field
proceeds and decoding stops at the second, `seuser` holds the first field's
string and `mls_range` is as on entry or `NULL` after a failed allocation;
when the first two proceed and the function returns an error, `seuser` and
`mls_range` hold their strings and `username` is as on entry or `NULL`
after a failed allocation. -/
theorem C11_fields_after_error (w : Nat) (alloc_ok : Nat → Bool) (buf : Mem)
    (size : Nat) (ibuf : input_buffer)
    (h : (unpack_buffer w alloc_ok buf size ibuf).ret ≠ EOK) :
    (¬ field_proceeds w (alloc_ok 0) buf size 0 →
      ((unpack_buffer w alloc_ok buf size ibuf).ibuf = ibuf ∨
        ((unpack_buffer w alloc_ok buf size ibuf).ret = ENOMEM ∧
          (unpack_buffer w alloc_ok buf size ibuf).ibuf = { ibuf with seuser := none }))) ∧
    (field_proceeds w (alloc_ok 0) buf size 0 →
      ¬ field_proceeds w (alloc_ok 1) buf size ((4 + be32_at buf 0) % 2 ^ w) →
      ((unpack_buffer w alloc_ok buf size ibuf).ibuf
          = { ibuf with seuser := some (strndup_bytes buf 4 (be32_at buf 0)) } ∨
        ((unpack_buffer w alloc_ok buf size ibuf).ret = ENOMEM ∧
          (unpack_buffer w alloc_ok buf size ibuf).ibuf
            = { ibuf with seuser := some (strndup_bytes buf 4 (be32_at buf 0)),
                          mls_range := none }))) ∧
    (field_proceeds w (alloc_ok 0) buf size 0 →
      field_proceeds w (alloc_ok 1) buf size ((4 + be32_at buf 0) % 2 ^ w) →
      ((unpack_buffer w alloc_ok buf size ibuf).ibuf
          = { ibuf with
              seuser := some (strndup_bytes buf 4 (be32_at buf 0)),
              mls_range := some (strndup_bytes buf ((4 + be32_at buf 0) % 2 ^ w + 4)
                (be32_at buf ((4 + be32_at buf 0) % 2 ^ w))) } ∨
        ((unpack_buffer w alloc_ok buf size ibuf).ret = ENOMEM ∧
          (unpack_buffer w alloc_ok buf size ibuf).ibuf
            = { ibuf with
                seuser := some (strndup_bytes buf 4 (be32_at buf 0)),
                mls_range := some (strndup_bytes buf ((4 + be32_at buf 0) % 2 ^ w + 4)
                  (be32_at buf ((4 + be32_at buf 0) % 2 ^ w))),
                username := none }))) := by
  have key := unpack_buffer_after_error w alloc_ok buf size ibuf h
  simp only [zero_add] at key
  exact key

/-- C11 (amended) at the frame `frame_zero_mls`: the first field proceeds,
decoding stops at the second, whose declared length is zero, and `seuser`
holds `a` although it was `NULL` on entry. -/
theorem C11_fields_after_error_witness :
    (unpack_buffer 64 (fun _ => true) (memOf frame_zero_mls) 21
      ⟨none, none, none⟩).ret ≠ EOK ∧
    ((unpack_buffer 64 (fun _ => true) (memOf frame_zero_mls) 21 ⟨none, none, none⟩).ibuf
        = { (⟨none, none, none⟩ : input_buffer) with
            seuser := some (strndup_bytes (memOf frame_zero_mls) 4
              (be32_at (memOf frame_zero_mls) 0)) } ∨
      ((unpack_buffer 64 (fun _ => true) (memOf frame_zero_mls) 21
          ⟨none, none, none⟩).ret = ENOMEM ∧
        (unpack_buffer 64 (fun _ => true) (memOf frame_zero_mls) 21
          ⟨none, none, none⟩).ibuf
          = { (⟨none, none, none⟩ : input_buffer) with
              seuser := some (strndup_bytes (memOf frame_zero_mls) 4
                (be32_at (memOf frame_zero_mls) 0)),
              mls_range := none })) ∧
    strndup_bytes (memOf frame_zero_mls) 4 (be32_at (memOf frame_zero_mls) 0) = [97] :=
  ⟨by decide,
    (C11_fields_after_error 64 (fun _ => true) (memOf frame_zero_mls) 21
      ⟨none, none, none⟩ (by decide)).2.1 (by decide) (by decide),
    by decide⟩

/-- C12: for every status `result` and every `r`, when `talloc_array` finds
memory `pack_buffer` returns `EOK` with `r->size = 4` and `r->buf` exactly
the four big-endian bytes of `result` modulo `2 ^ 32`; read back as a
big-endian 32-bit value they give `result` modulo `2 ^ 32`, and status 0
gives the bytes `00 00 00 00`. -/
theorem C12_pack_buffer_status_word (r : response) (result : Int) :
    pack_buffer true r result
      = (EOK, ⟨some (be32_bytes (result % 2 ^ 32).toNat), 4⟩) ∧
    (be32_bytes (result % 2 ^ 32).toNat).length = 4 ∧
    ((be32_at (memOf (be32_bytes (result % 2 ^ 32).toNat)) 0 : Nat) : Int)
      = result % 2 ^ 32 ∧
    pack_buffer true r 0 = (EOK, ⟨some [0, 0, 0, 0], 4⟩) := by
  have hnn : 0 ≤ result % 2 ^ 32 := Int.emod_nonneg _ (by norm_num)
  have hlt : (result % 2 ^ 32).toNat < 2 ^ 32 := by
    have := Int.emod_lt_of_pos result (show (0 : Int) < 2 ^ 32 by norm_num)
    omega
  refine ⟨rfl, rfl, ?_, rfl⟩
  rw [be32_at_stored _ 0 _ hlt (stored_memOf _)]
  exact Int.toNat_of_nonneg hnn

/-- C13 (the claim as stated fails): the 12-byte message `msg_no_question`
has answer count 0 and question count 0, and the function returns
`ARES_EBADRESP`, not `ARES_ENODATA`. -/
theorem C13_no_answer_bad_question_count :
    DNS_HEADER_ANCOUNT (memOf msg_no_question) = 0 ∧
    ¬ ((12 : Int) < (HFIXEDSZ : Int)) ∧
    (_ares_parse_srv_reply label_expander true (memOf msg_no_question) 12).status
      = ARES_EBADRESP ∧
    (_ares_parse_srv_reply label_expander true (memOf msg_no_question) 12).status
      ≠ ARES_ENODATA := by
  refine ⟨by decide, by decide, by decide, by decide⟩

/-- C13 (amended): for every buffer of length at least the fixed header
size whose header question count is 1 and whose answer count is 0, the
function returns `ARES_ENODATA`, which is not `ARES_EBADRESP`, whatever the
rest of the buffer is. -/
theorem C13_no_answer_is_nodata (expand : Expander) (malloc_ok : Bool) (abuf : Mem)
    (alen : Int) (hlen : (HFIXEDSZ : Int) ≤ alen)
    (hqd : DNS_HEADER_QDCOUNT abuf = 1) (han : DNS_HEADER_ANCOUNT abuf = 0) :
    (_ares_parse_srv_reply expand malloc_ok abuf alen).status = ARES_ENODATA ∧
    (_ares_parse_srv_reply expand malloc_ok abuf alen).status ≠ ARES_EBADRESP := by
  have h1 : ¬ alen < (HFIXEDSZ : Int) := by omega
  have e : _ares_parse_srv_reply expand malloc_ok abuf alen
      = ⟨ARES_ENODATA, none, 0, [4, 5, 6, 7]⟩ := by
    unfold _ares_parse_srv_reply
    simp only [h1, hqd, han, if_false, ne_eq, not_true_eq_false, if_true]
  rw [e]
  exact ⟨rfl, by decide⟩

/-- C13 (amended) at the message `msg_no_answer`. -/
theorem C13_no_answer_is_nodata_witness :
    (_ares_parse_srv_reply label_expander true (memOf msg_no_answer) 12).status
      = ARES_ENODATA ∧
    (_ares_parse_srv_reply label_expander true (memOf msg_no_answer) 12).status
      ≠ ARES_EBADRESP :=
  C13_no_answer_is_nodata label_expander true (memOf msg_no_answer) 12
    (by decide) (by decide) (by decide)

/-- C14: for every buffer shorter than the fixed 12-byte header, and for
every buffer whose header question count is not 1, the function returns
`ARES_EBADRESP`, whatever the answer count and the rest of the message. -/
theorem C14_bad_header_is_badresp (expand : Expander) (malloc_ok : Bool) (abuf : Mem)
    (alen : Int)
    (h : alen < (HFIXEDSZ : Int) ∨ DNS_HEADER_QDCOUNT abuf ≠ 1) :
    (_ares_parse_srv_reply expand malloc_ok abuf alen).status = ARES_EBADRESP := by
  unfold _ares_parse_srv_reply
  by_cases h1 : alen < (HFIXEDSZ : Int)
  · simp only [h1, if_true]
  · have h2 : DNS_HEADER_QDCOUNT abuf ≠ 1 := h.resolve_left h1
    simp only [h1, if_false, h2, ne_eq, not_false_eq_true, if_true]

/-- C14 at the message `msg_two_questions`, whose question count is 2. -/
theorem C14_bad_header_is_badresp_witness :
    (_ares_parse_srv_reply label_expander true (memOf msg_two_questions) 17).status
      = ARES_EBADRESP :=
  C14_bad_header_is_badresp label_expander true (memOf msg_two_questions) 17
    (Or.inr (by decide))

/-- C15: for a message with question count 1 and answer count `k ≥ 1` whose
first `k - 1` answers are well-formed IN/SRV records (`srv_section_to`) and
whose final answer, with its owner name and fixed header inside the buffer,
is IN/SRV with a declared data length below 6, the function returns
`ARES_EBADRESP` with `*srv_out = NULL` and `*nsrvreply = 0` (memory being
found). -/
theorem C15_short_final_srv_is_badresp (expand : Expander) (abuf : Mem) (alen : Int)
    (qname owner : List Nat) (qlen stop olen : Nat) (recs : List srv_reply)
    (hlen : (HFIXEDSZ : Int) ≤ alen)
    (hqd : DNS_HEADER_QDCOUNT abuf = 1)
    (han : DNS_HEADER_ANCOUNT abuf = recs.length + 1)
    (hq : expand HFIXEDSZ abuf alen = .ok (qname, qlen))
    (hfit : ((HFIXEDSZ + qlen + QFIXEDSZ : Nat) : Int) ≤ alen)
    (hrecs : srv_section_to expand abuf alen (HFIXEDSZ + qlen + QFIXEDSZ) recs stop)
    (ho : expand stop abuf alen = .ok (owner, olen))
    (hhdr : ((stop + olen + RRFIXEDSZ : Nat) : Int) ≤ alen)
    (hc : DNS_RR_CLASS abuf (stop + olen) = C_IN)
    (ht : DNS_RR_TYPE abuf (stop + olen) = T_SRV)
    (hl : DNS_RR_LEN abuf (stop + olen) < 6) :
    (_ares_parse_srv_reply expand true abuf alen).status = ARES_EBADRESP ∧
    (_ares_parse_srv_reply expand true abuf alen).srv_out = none ∧
    (_ares_parse_srv_reply expand true abuf alen).nsrvreply = 0 := by
  have hstep : answer_step expand abuf alen stop = .error ARES_EBADRESP := by
    have hfix : ¬ ((stop + olen + RRFIXEDSZ : Nat) : Int) > alen := by omega
    unfold answer_step
    simp only [ho, hfix, hc, ht, hl, if_false, and_self, if_true]
  exact parse_loop_leaves expand abuf alen qname qlen recs.length stop ARES_EBADRESP
    (by omega) hqd hq (by omega) (by omega)
    (srv_section_to_cursor expand abuf alen recs _ stop hrecs) hstep

/-- C15 at the message `msg_short_srv`: one well-formed SRV answer, then an
IN/SRV answer declaring 5 data bytes. -/
theorem C15_short_final_srv_is_badresp_witness :
    (_ares_parse_srv_reply label_expander true (memOf msg_short_srv) 53).status
      = ARES_EBADRESP ∧
    (_ares_parse_srv_reply label_expander true (memOf msg_short_srv) 53).srv_out = none ∧
    (_ares_parse_srv_reply label_expander true (memOf msg_short_srv) 53).nsrvreply = 0 :=
  C15_short_final_srv_is_badresp label_expander (memOf msg_short_srv) 53 [] [] 1 37 1
    [⟨1, 2, 389, [97]⟩]
    (by decide) (by decide) (by decide) (by rfl) (by decide)
    ⟨[], 1, 3, by rfl, by decide, by decide, by decide, by decide, by decide,
      by decide, by decide, by rfl, rfl⟩
    (by rfl) (by decide) (by decide) (by decide) (by decide)

/-- C16 (the claim as stated fails): on the 12-byte message
`msg_header_only`, which passes the header checks, the expander fails on the
question name with `badname` and the function returns `ARES_EBADNAME`, not
`ARES_EBADRESP`. -/
theorem C16_expander_status_not_badresp :
    ¬ ((12 : Int) < (HFIXEDSZ : Int)) ∧
    DNS_HEADER_QDCOUNT (memOf msg_header_only) = 1 ∧
    DNS_HEADER_ANCOUNT (memOf msg_header_only) ≠ 0 ∧
    (label_expander HFIXEDSZ (memOf msg_header_only) 12).toOption = none ∧
    (_ares_parse_srv_reply label_expander true (memOf msg_header_only) 12).status
      = ARES_EBADNAME ∧
    (_ares_parse_srv_reply label_expander true (memOf msg_header_only) 12).status
      ≠ ARES_EBADRESP := by
  refine ⟨by decide, by decide, by decide, by decide, by decide, by decide⟩

/-- C16 (amended): for every message that passes the header checks, when
the name expander fails with error `e` on the question name, on the owner
name of the answer of any pass `j` of the loop, or on the target of an
IN/SRV answer, the function returns the status of `e` as the expander
reported it (`ARES_EBADNAME` or `ARES_ENOMEM`, never `ARES_EBADRESP` or
`ARES_SUCCESS`) and exposes no record. -/
theorem C16_expander_status_returned (expand : Expander) (abuf : Mem) (alen : Int)
    (e : expand_err) (hlen : (HFIXEDSZ : Int) ≤ alen)
    (hqd : DNS_HEADER_QDCOUNT abuf = 1) (han : DNS_HEADER_ANCOUNT abuf ≠ 0) :
    (∀ malloc_ok, expand HFIXEDSZ abuf alen = .error e →
      _ares_parse_srv_reply expand malloc_ok abuf alen
        = ⟨e.status, none, 0, [4, 5, 6, 7]⟩) ∧
    (∀ qname qlen j c, expand HFIXEDSZ abuf alen = .ok (qname, qlen) →
      ((HFIXEDSZ + qlen + QFIXEDSZ : Nat) : Int) ≤ alen →
      j < DNS_HEADER_ANCOUNT abuf →
      loop_cursor expand abuf alen j (HFIXEDSZ + qlen + QFIXEDSZ) = some c →
      (expand c abuf alen = .error e →
        (_ares_parse_srv_reply expand true abuf alen).status = e.status ∧
        (_ares_parse_srv_reply expand true abuf alen).srv_out = none ∧
        (_ares_parse_srv_reply expand true abuf alen).nsrvreply = 0) ∧
      (∀ owner olen, expand c abuf alen = .ok (owner, olen) →
        ((c + olen + RRFIXEDSZ : Nat) : Int) ≤ alen →
        DNS_RR_CLASS abuf (c + olen) = C_IN → DNS_RR_TYPE abuf (c + olen) = T_SRV →
        6 ≤ DNS_RR_LEN abuf (c + olen) →
        expand (c + olen + RRFIXEDSZ + 6) abuf alen = .error e →
        (_ares_parse_srv_reply expand true abuf alen).status = e.status ∧
        (_ares_parse_srv_reply expand true abuf alen).srv_out = none ∧
        (_ares_parse_srv_reply expand true abuf alen).nsrvreply = 0)) ∧
    e.status ≠ ARES_EBADRESP ∧ e.status ≠ ARES_SUCCESS := by
  have h1 : ¬ alen < (HFIXEDSZ : Int) := by omega
  refine ⟨fun malloc_ok hq => parse_eq_question_err expand malloc_ok abuf alen e h1 hqd han hq,
    fun qname qlen j c hq hfit hj hc => ⟨fun he => ?_, fun owner olen ho hhdr hcl hty hl6 he => ?_⟩,
    by cases e <;> decide, expand_err_status_ne e⟩
  · have hstep : answer_step expand abuf alen c = .error e.status := by
      unfold answer_step
      simp only [he]
    exact parse_loop_leaves expand abuf alen qname qlen j c e.status h1 hqd hq
      (by omega) hj hc hstep
  · have hstep : answer_step expand abuf alen c = .error e.status := by
      have hfix : ¬ ((c + olen + RRFIXEDSZ : Nat) : Int) > alen := by omega
      have hl : ¬ DNS_RR_LEN abuf (c + olen) < 6 := by omega
      unfold answer_step
      simp only [ho, hfix, hcl, hty, hl, he, if_false, and_self, if_true]
    exact parse_loop_leaves expand abuf alen qname qlen j c e.status h1 hqd hq
      (by omega) hj hc hstep

/-- C16 (amended) at the message `msg_srv_cut`, where the expander fails on
the target of the SRV answer. -/
theorem C16_expander_status_returned_witness :
    (_ares_parse_srv_reply label_expander true (memOf msg_srv_cut) 28).status
      = expand_err.badname.status ∧
    (_ares_parse_srv_reply label_expander true (memOf msg_srv_cut) 28).srv_out = none ∧
    (_ares_parse_srv_reply label_expander true (memOf msg_srv_cut) 28).nsrvreply = 0 :=
  ((C16_expander_status_returned label_expander (memOf msg_srv_cut) 28 .badname
    (by decide) (by decide) (by decide)).2.1 [] 1 0 17 (by rfl) (by decide) (by decide)
    (by rfl)).2 [] 1 (by rfl) (by decide) (by decide) (by decide) (by decide) (by rfl)

/-- C17: the exit status of `main` is `EXIT_SUCCESS` exactly when the start
of the program and the read succeed, the request decode returns `EOK`, the
privileged action returns `EOK`, the response is encoded, and the write
returns the full response size; and when the read, the decode or the
privileged action fails, no write to standard output takes place. -/
theorem C17_exit_status_and_no_partial_response (env : main_env) :
    ((main env).1 = EXIT_SUCCESS ↔
      startup_ok env = true ∧
      ∃ len resp, env.read_len = some len ∧
        (decoded_request env len).ret = EOK ∧
        action_status env len = EOK ∧
        prepare_response env.resp_ok env.resp_buf_ok (action_status env len) none
          = (EOK, some resp) ∧
        env.write_ret (resp.buf.getD []) = some resp.size) ∧
    ((env.read_len = none ∨
        ∃ len, env.read_len = some len ∧
          ((decoded_request env len).ret ≠ EOK ∨ action_status env len ≠ EOK)) →
      ∀ b, event.write b ∉ (main env).2) := by
  constructor
  · unfold main startup_ok
    by_cases h1 : env.bad_option = true
    · simp [h1, EXIT_SUCCESS]
    by_cases h2 : env.prg_name_ok = true
    swap
    · simp [h1, h2, EXIT_SUCCESS, EXIT_FAILURE]
    by_cases h3 : env.main_ctx_ok = true
    swap
    · simp [h1, h2, h3, EXIT_SUCCESS, EXIT_FAILURE]
    by_cases h4 : env.buf_ok = true
    swap
    · simp [h1, h2, h3, h4, EXIT_SUCCESS, EXIT_FAILURE]
    by_cases h5 : env.ibuf_ok = true
    swap
    · simp [h1, h2, h3, h4, h5, EXIT_SUCCESS, EXIT_FAILURE]
    cases hr : env.read_len with
    | none => simp [h1, h2, h3, h4, h5, EXIT_SUCCESS, EXIT_FAILURE]
    | some len =>
      have hd : unpack_buffer env.w env.strndup_ok env.in_buf len ⟨none, none, none⟩
          = decoded_request env len := rfl
      simp only [hd]
      have ha : env.set_seuser (decoded_request env len).ibuf.username
          (decoded_request env len).ibuf.seuser (decoded_request env len).ibuf.mls_range
          = action_status env len := rfl
      simp only [ha]
      by_cases hu : (decoded_request env len).ret = EOK
      swap
      · simp [h1, h2, h3, h4, h5, hu, EXIT_SUCCESS, EXIT_FAILURE]
      by_cases hs : action_status env len = EOK
      swap
      · simp [h1, h2, h3, h4, h5, hu, hs, EXIT_SUCCESS, EXIT_FAILURE]
      simp only [h1, h2, h3, h4, h5, hu, hs, Bool.false_eq_true, if_false, Bool.not_true,
        ne_eq, not_true_eq_false, Bool.not_false, Bool.and_self, true_and,
        Option.some.injEq, exists_and_left, exists_eq_left']
      cases env.resp_ok <;> cases env.resp_buf_ok <;>
        simp [prepare_response, pack_buffer, ENOMEM, EOK, EXIT_SUCCESS, EXIT_FAILURE]
      cases env.write_ret (SAFEALIGN_SET_UINT32 0) with
      | none => simp
      | some written => by_cases hw : written = 4 <;> simp [hw]
  · intro h b hb
    rcases main_events env with h0 | ⟨len, hr, h1⟩ | ⟨len, hr, hu, hs, h2⟩
    · rw [h0] at hb; simp at hb
    · rw [h1] at hb; simp at hb
    · rcases h with h | ⟨len2, hr2, h⟩
      · rw [h] at hr; simp at hr
      · rw [hr] at hr2
        simp only [Option.some.injEq] at hr2
        subst hr2
        rcases h with h | h
        · exact h hu
        · exact h hs

/-- C17 in an environment where everything succeeds and the 43-byte frame
is received: the exit status is `EXIT_SUCCESS`. -/
theorem C17_exit_status_and_no_partial_response_witness :
    (main (env_all_ok 64 frame_trailing 43)).1 = EXIT_SUCCESS :=
  (C17_exit_status_and_no_partial_response (env_all_ok 64 frame_trailing 43)).1.mpr
    ⟨by decide, 43, ⟨some [0, 0, 0, 0], 4⟩, rfl, by decide, by decide, by decide,
      by decide⟩

/-- C18 (the code departs from the claim): on the well-formed message
`msg_record_in_data` the answer at position 0 is a TXT record and the answer
at position 1, at offset 48, is SRV (1, 2, 389, host `a`). The function
succeeds with count 2, but index 1 of the array holds (9, 9, 8080, host
`x`), decoded at offset 28 inside the data of answer 0; no byte at or after
offset 48 is read. -/
theorem C18_index_holds_record_from_data :
    _ares_parse_srv_reply label_expander true (memOf msg_record_in_data) 68
      = ⟨ARES_SUCCESS, some [none, some ⟨9, 9, 8080, [120]⟩], 2,
        [4, 5, 6, 7, 18, 19, 20, 21, 26, 27, 29, 30, 31, 32, 37, 38, 39, 40, 41, 42,
          43, 44]⟩ ∧
    (label_expander HFIXEDSZ (memOf msg_record_in_data) 68).toOption = some ([], 1) ∧
    (spec_answer_slots label_expander (memOf msg_record_in_data) 68 2
        (HFIXEDSZ + 1 + QFIXEDSZ)).toOption
      = some [none, some ⟨1, 2, 389, [97]⟩] ∧
    (∀ o ∈ (_ares_parse_srv_reply label_expander true (memOf msg_record_in_data)
        68).reads, o < 48) := by
  refine ⟨by decide, by decide, by decide, by decide⟩

/-- C20: every write `main` makes to standard output carries the encoding
of status 0, the bytes `00 00 00 00`, and is made only after the privileged
action returned `EOK`; a non-zero status of `set_seuser` is never encoded. -/
theorem C20_only_status_zero_written (env : main_env) (b : List Nat)
    (h : event.write b ∈ (main env).2) :
    b = SAFEALIGN_SET_UINT32 0 ∧ b = [0, 0, 0, 0] ∧
    ∃ len, env.read_len = some len ∧ action_status env len = EOK := by
  rcases main_events env with h0 | ⟨len, hr, h1⟩ | ⟨len, hr, hu, hs, h2⟩
  · rw [h0] at h; simp at h
  · rw [h1] at h; simp at h
  · rw [h2] at h
    simp only [List.mem_cons, reduceCtorEq, event.write.injEq, List.mem_singleton,
      List.not_mem_nil, or_false, false_or] at h
    exact ⟨h, by rw [h]; rfl, len, hr, hs⟩

/-- C20 in an environment where everything succeeds and the 46-byte buffer
`frame_trailing` is received. -/
theorem C20_only_status_zero_written_witness :
    event.write [0, 0, 0, 0] ∈ (main (env_all_ok 64 frame_trailing 46)).2 ∧
    [0, 0, 0, 0] = SAFEALIGN_SET_UINT32 0 :=
  ⟨by decide, (C20_only_status_zero_written (env_all_ok 64 frame_trailing 46)
    [0, 0, 0, 0] (by decide)).1⟩

end Sssd
